import Mathlib

/-!
# vidtcp: framing and transport of video frames over one TCP connection

A shallow embedding of `src/main.cpp`.  The operating system and the image
library are the environment: every system call's return value is given by an
oracle, the bytes in flight are an explicit list, and every call the program
makes is appended to a trace.  Loops that the source writes as `while` are
functions with a step bound; a run that exhausts the bound reports
`outOfFuel` together with the state it reached.

`size_t` counters (`sent`, `received`, `chunk_size`) are natural numbers: they
never exceed the length of the buffer they index, so no wrap-around can occur.
`uint32_t` values are natural numbers reduced modulo `2 ^ 32` where the source
converts.
-/

namespace VidTcp

/-! ## Constants and bytes -/

/-- A byte (`uchar`). -/
abbrev Byte := Fin 256

/-- Line 12: `const size_t CHUNK_SIZE = 1024`. -/
def CHUNK_SIZE : Nat := 1024

/-- Line 13: `const int JPEG_QUALITY = 80`. -/
def JPEG_QUALITY : Int := 80

/-- Line 216: the literal `10 * 1024 * 1024`. -/
def MAX_FRAME_LEN : Nat := 10 * 1024 * 1024

/-! ## Address classification (lines 15-17) -/

/-- The index of the first occurrence of a character, as `std::string::find`
computes it; `none` stands for `std::string::npos`. -/
def find : List Char → Char → Option Nat
  | [], _ => none
  | c :: cs, ch => if c = ch then some 0 else (find cs ch).map (· + 1)

/-- Lines 15-17: `addr.find(':') != std::string::npos`. -/
def is_ipv6 (addr : String) : Bool :=
  (find addr.data ':').isSome

/-! ## Byte order (`htole32`, `le32toh`) and the object representation of a word -/

/-- The byte order of the host. -/
inductive ByteOrder where
  | little
  | big
  deriving DecidableEq, Repr

/-- Byte number `k` of a value, counted from the least significant one. -/
def byteAt (v k : Nat) : Byte :=
  ⟨v / 256 ^ k % 256, Nat.mod_lt _ (by decide)⟩

/-- Reversal of the four bytes of a 32-bit word (`__bswap_32`). -/
def bswap32 (v : Nat) : Nat :=
  (v % 256) * 16777216 + (v / 256 % 256) * 65536 + (v / 65536 % 256) * 256
    + v / 16777216 % 256

/-- The library function `htole32`: the identity on a little-endian host, a byte swap
on a big-endian one. -/
def htole32 : ByteOrder → Nat → Nat
  | .little, v => v
  | .big, v => bswap32 v

/-- The library function `le32toh`: the identity on a little-endian host, a byte swap
on a big-endian one. -/
def le32toh : ByteOrder → Nat → Nat
  | .little, v => v
  | .big, v => bswap32 v

/-- The four bytes a `uint32_t` variable occupies in memory, lowest address first. -/
def toMem : ByteOrder → Nat → List Byte
  | .little, v => [byteAt v 0, byteAt v 1, byteAt v 2, byteAt v 3]
  | .big, v => [byteAt v 3, byteAt v 2, byteAt v 1, byteAt v 0]

/-- The value of a `uint32_t` variable whose four bytes in memory are given, lowest
address first. -/
def ofMem : ByteOrder → List Byte → Nat
  | .little, [a, b, c, d] => a.val + 256 * b.val + 65536 * c.val + 16777216 * d.val
  | .big, [a, b, c, d] => d.val + 256 * c.val + 65536 * b.val + 16777216 * a.val
  | _, _ => 0

/-! ## Sockets, system calls and the trace -/

/-- The three sockets of the program: the one of `sender_fn`, and the listening and
the accepted socket of `receiver_fn`. -/
inductive Fd where
  | sock
  | server_fd
  | client_sock
  deriving DecidableEq, Repr

/-- The variable a `read` or `write` call transfers. -/
inductive Buf where
  | width_le
  | height_le
  | len_le
  | payload
  deriving DecidableEq, Repr

/-- One observable action of the program. -/
inductive Ev where
  /-- The call `socket(ipv6 ? AF_INET6 : AF_INET, SOCK_STREAM, 0)` and its result. -/
  | socket (fd : Fd) (ipv6 : Bool) (ret : Int)
  | setsockopt (ret : Int)
  | inet_pton (ipv6 : Bool) (ret : Int)
  | connect (ret : Int)
  | bind (ret : Int)
  | listen (ret : Int)
  | accept (ret : Int)
  | camOpen (ok : Bool)
  /-- The call `write(sock, p, req)` where `p` points `off` bytes into `buf`. -/
  | write (buf : Buf) (off req : Nat) (ret : Int)
  /-- The call `read(client_sock, p, req)` where `p` points `off` bytes into `buf`. -/
  | read (buf : Buf) (off req : Nat) (ret : Int)
  /-- Line 221: `std::vector<uchar> buffer(frame_len)`. -/
  | alloc (n : Nat)
  /-- Line 233: `cv::imdecode(buffer, ...)`, and whether the image is non-empty. -/
  | imdecode (buffer : List Byte) (ok : Bool)
  | imshow
  | waitKey (ret : Int)
  | close (fd : Fd)
  | destroyAllWindows
  deriving DecidableEq, Repr

/-- The sending end of the connection: the bytes put on the wire so far, the number
of `write` calls made, and the trace. -/
structure Tx where
  wire : List Byte
  calls : Nat
  trace : List Ev
  deriving DecidableEq, Repr

/-- The receiving end of the connection: the bytes the peer sends before it closes
that have not been read yet, the number of `read` calls made, and the trace. -/
structure Rx where
  rest : List Byte
  calls : Nat
  trace : List Ev
  deriving DecidableEq, Repr

/-- The call `write(sock, p, n)`: `mem` is the memory at `p`.  The environment `wr`
gives the return value from the call number and the requested count; that many bytes
(none when negative) go on the wire. -/
def sockWrite (wr : Nat → Nat → Int) (c : Tx) (buf : Buf) (off : Nat) (mem : List Byte)
    (n : Nat) : Int × Tx :=
  let ret := wr c.calls n
  (ret, { wire := c.wire ++ (mem.take n).take ret.toNat,
          calls := c.calls + 1,
          trace := c.trace ++ [Ev.write buf off n ret] })

/-- The call `read(client_sock, p, n)`.  The environment `rd` gives, from the call
number and the requested count, a negative value (the call fails) or the number of
bytes the transport is ready to hand over; the call returns that many bytes, or
all that are left before the end of the stream when fewer are left (so `0` at the
end of the stream). -/
def sockRead (rd : Nat → Nat → Int) (c : Rx) (buf : Buf) (off n : Nat) :
    Int × List Byte × Rx :=
  let want := rd c.calls n
  if want < 0 then
    (want, [], { rest := c.rest, calls := c.calls + 1,
                 trace := c.trace ++ [Ev.read buf off n want] })
  else
    let got := c.rest.take want.toNat
    ((got.length : Int), got,
      { rest := c.rest.drop want.toNat, calls := c.calls + 1,
        trace := c.trace ++ [Ev.read buf off n got.length] })

/-! ## The sender's frame body (lines 94-118) -/

/-- What the sender holds after capture and encoding: `frame.cols`, `frame.rows`
and `compressed_data`. -/
structure Captured where
  cols : Nat
  rows : Nat
  data : List Byte
  deriving DecidableEq, Repr

/-- How the sender's frame body ends. -/
inductive SendExit where
  /-- The payload loop ran to its end (line 118). -/
  | sent
  /-- A header write failed: `break` (line 106). -/
  | metaFailed
  /-- A payload write failed: `goto cleanup` (line 115). -/
  | chunkFailed
  | outOfFuel
  deriving DecidableEq, Repr

/-- Lines 110-118: the payload loop of the sender, from `sent`. -/
def sendPayload (wr : Nat → Nat → Int) (data : List Byte) :
    Nat → Nat → Tx → SendExit × Nat × Tx
  | 0, sent, c => (.outOfFuel, sent, c)
  | fuel + 1, sent, c =>
    if sent < data.length then
      let chunk_size := min CHUNK_SIZE (data.length - sent)
      let w := sockWrite wr c .payload sent (data.drop sent) chunk_size
      if w.1 < 0 then (.chunkFailed, sent, w.2)
      else sendPayload wr data fuel (sent + w.1.toNat) w.2
    else (.sent, sent, c)

/-- Lines 94-118: the header words are converted and written, then the payload. -/
def sendFrame (host : ByteOrder) (wr : Nat → Nat → Int) (fuel : Nat) (f : Captured)
    (c : Tx) : SendExit × Tx :=
  let frame_len := f.data.length % 2 ^ 32
  let width := f.cols % 2 ^ 32
  let height := f.rows % 2 ^ 32
  let width_le := htole32 host width
  let height_le := htole32 host height
  let len_le := htole32 host frame_len
  let w1 := sockWrite wr c .width_le 0 (toMem host width_le) 4
  if w1.1 < 0 then (.metaFailed, w1.2) else
  let w2 := sockWrite wr w1.2 .height_le 0 (toMem host height_le) 4
  if w2.1 < 0 then (.metaFailed, w2.2) else
  let w3 := sockWrite wr w2.2 .len_le 0 (toMem host len_le) 4
  if w3.1 < 0 then (.metaFailed, w3.2) else
  let p := sendPayload wr f.data fuel 0 w3.2
  (p.1, p.2.2)

/-! ## The receiver's frame body (lines 203-231) -/

/-- How the receiver's payload loop ends. -/
inductive PayloadExit where
  /-- The loop condition `received < frame_len` became false. -/
  | complete
  /-- A read returned `<= 0`: `goto cleanup_receiver` (line 228). -/
  | midFrame
  | outOfFuel
  deriving DecidableEq, Repr

/-- The bytes a read stores at `buffer.data() + received`. -/
def store (buffer : List Byte) (received : Nat) (got : List Byte) : List Byte :=
  buffer.take received ++ got ++ buffer.drop (received + got.length)

/-- Lines 223-231: the payload loop of the receiver, from `received`. -/
def recvPayload (rd : Nat → Nat → Int) (frame_len : Nat) :
    Nat → Nat → List Byte → Rx → PayloadExit × Nat × List Byte × Rx
  | 0, received, buffer, c => (.outOfFuel, received, buffer, c)
  | fuel + 1, received, buffer, c =>
    if received < frame_len then
      let r := sockRead rd c .payload received (min CHUNK_SIZE (frame_len - received))
      if r.1 ≤ 0 then (.midFrame, received, buffer, r.2.2)
      else recvPayload rd frame_len fuel (received + r.1.toNat)
        (store buffer received r.2.1) r.2.2
    else (.complete, received, buffer, c)

/-- How the receiver's frame body ends. -/
inductive RecvExit where
  /-- The payload loop completed: the decoded header and the filled buffer. -/
  | frame (width height frame_len : Nat) (buffer : List Byte)
  /-- A header read did not return 4: `break` (line 209). -/
  | metaFailed
  /-- The decoded length exceeds the limit: `break` (line 218). -/
  | tooLarge (frame_len : Nat)
  /-- A payload read returned `<= 0`: `goto cleanup_receiver` (line 228). -/
  | midFrame
  | outOfFuel
  deriving DecidableEq, Repr

/-- Lines 203-231: three header reads, conversion, the size check, the buffer and
the payload loop. -/
def recvFrame (host : ByteOrder) (rd : Nat → Nat → Int) (fuel : Nat) (c : Rx) :
    RecvExit × Rx :=
  let r1 := sockRead rd c .width_le 0 4
  if r1.1 ≠ 4 then (.metaFailed, r1.2.2) else
  let r2 := sockRead rd r1.2.2 .height_le 0 4
  if r2.1 ≠ 4 then (.metaFailed, r2.2.2) else
  let r3 := sockRead rd r2.2.2 .len_le 0 4
  if r3.1 ≠ 4 then (.metaFailed, r3.2.2) else
  let width := le32toh host (ofMem host r1.2.1)
  let height := le32toh host (ofMem host r2.2.1)
  let frame_len := le32toh host (ofMem host r3.2.1)
  if frame_len > MAX_FRAME_LEN then (.tooLarge frame_len, r3.2.2) else
  let c3 : Rx := { r3.2.2 with trace := r3.2.2.trace ++ [Ev.alloc frame_len] }
  let p := recvPayload rd frame_len fuel 0 (List.replicate frame_len 0) c3
  match p.1 with
  | .complete => (.frame width height frame_len p.2.2.1, p.2.2.2)
  | .midFrame => (.midFrame, p.2.2.2)
  | .outOfFuel => (.outOfFuel, p.2.2.2)

/-! ## The sender (lines 19-126) -/

/-- What one turn of the sender's loop obtains from the camera and the encoder. -/
inductive Grab where
  /-- Line 84: `frame.empty()`. -/
  | empty
  /-- Line 89: `cv::imencode` returned false. -/
  | encodeFailed
  | ok (f : Captured)
  deriving DecidableEq, Repr

/-- The environment of `sender_fn`: the host's byte order, the results of the
set-up calls, what each turn of the loop captures, and the results of `write`. -/
structure SenderEnv where
  host : ByteOrder
  socketRet : Int
  ptonRet : Int
  connectRet : Int
  camOpened : Bool
  grab : Nat → Grab
  wr : Nat → Nat → Int

/-- The result of running `sender_fn` or `receiver_fn`: the value returned (`none`
when the step bound was reached first) and the trace. -/
structure Run where
  ret : Option Bool
  trace : List Ev
  deriving DecidableEq, Repr

/-- Lines 82-121: the streaming loop, `n` turns at most, from turn `i`.  The pauses
(lines 85 and 120) are not modelled. -/
def sendLoop (env : SenderEnv) (fuel : Nat) : Nat → Nat → Tx → SendExit × Tx
  | 0, _, c => (.outOfFuel, c)
  | n + 1, i, c =>
    match env.grab i with
    | .empty => sendLoop env fuel n (i + 1) c
    | .encodeFailed => sendLoop env fuel n (i + 1) c
    | .ok f =>
      let r := sendFrame env.host env.wr fuel f c
      match r.1 with
      | .sent => sendLoop env fuel n (i + 1) r.2
      | e => (e, r.2)

/-- Lines 19-126.  The two address-family branches (lines 29-61) differ only in the
family constant and the address structure, so they are one path here with the
family recorded in the events. -/
def sender_fn (env : SenderEnv) (addr : String) (port : Int) (fuel : Nat) : Run :=
  let _ := port
  let ipv6 := is_ipv6 addr
  let t0 := [Ev.socket .sock ipv6 env.socketRet]
  if env.socketRet < 0 then ⟨some false, t0⟩ else
  let t1 := t0 ++ [Ev.inet_pton ipv6 env.ptonRet]
  if env.ptonRet ≤ 0 then ⟨some false, t1 ++ [Ev.close .sock]⟩ else
  let t2 := t1 ++ [Ev.connect env.connectRet]
  if env.connectRet < 0 then ⟨some false, t2 ++ [Ev.close .sock]⟩ else
  let t3 := t2 ++ [Ev.camOpen env.camOpened]
  if env.camOpened = false then ⟨some false, t3 ++ [Ev.close .sock]⟩ else
  let r := sendLoop env fuel fuel 0 ⟨[], 0, t3⟩
  match r.1 with
  | .outOfFuel => ⟨none, r.2.trace⟩
  | _ => ⟨some true, r.2.trace ++ [Ev.close .sock]⟩

/-! ## The receiver (lines 128-251) -/

/-- The environment of `receiver_fn`: the host's byte order, the results of the
set-up calls, the bytes the client sends before it closes, the results of `read`,
whether the k-th received frame decodes to a non-empty image, and what `waitKey`
returns after it is shown.  The library call `cv::imdecode` is taken to return, with an
image or with none: an exception leaving it is not part of this model. -/
structure ReceiverEnv where
  host : ByteOrder
  socketRet : Int
  setsockoptRet : Int
  ptonRet : Int
  bindRet : Int
  listenRet : Int
  acceptRet : Int
  incoming : List Byte
  rd : Nat → Nat → Int
  decodeOk : Nat → Bool
  key : Nat → Int

/-- A frame the receiver has reassembled. -/
structure Received where
  width : Nat
  height : Nat
  frame_len : Nat
  buffer : List Byte
  deriving DecidableEq, Repr

/-- How the receiver's loop ends. -/
inductive LoopExit where
  /-- Line 209: a header read did not return 4 bytes. -/
  | metaFailed
  /-- Line 218: the frame is too large. -/
  | tooLarge
  /-- Line 228: the connection closed during the payload. -/
  | midFrame
  /-- Line 242: the key is q or ESC. -/
  | quit
  | outOfFuel
  deriving DecidableEq, Repr

/-- The state of the receiver's loop: the connection and the frames reassembled so
far, oldest first. -/
structure RecvState where
  conn : Rx
  frames : List Received
  deriving DecidableEq, Repr

/-- Lines 202-244: the receive loop, `n` turns at most. -/
def recvLoop (env : ReceiverEnv) (fuel : Nat) : Nat → RecvState → LoopExit × RecvState
  | 0, s => (.outOfFuel, s)
  | n + 1, s =>
    let r := recvFrame env.host env.rd fuel s.conn
    match r.1 with
    | .metaFailed => (.metaFailed, { s with conn := r.2 })
    | .tooLarge _ => (.tooLarge, { s with conn := r.2 })
    | .midFrame => (.midFrame, { s with conn := r.2 })
    | .outOfFuel => (.outOfFuel, { s with conn := r.2 })
    | .frame width height frame_len buffer =>
      let k := s.frames.length
      let fs := s.frames ++ [⟨width, height, frame_len, buffer⟩]
      let c1 : Rx := { r.2 with trace := r.2.trace ++ [Ev.imdecode buffer (env.decodeOk k)] }
      if env.decodeOk k = false then recvLoop env fuel n ⟨c1, fs⟩
      else
        let c2 : Rx := { c1 with trace := c1.trace ++ [Ev.imshow, Ev.waitKey (env.key k)] }
        let key := env.key k % 256
        if key = 113 ∨ key = 27 then (.quit, ⟨c2, fs⟩)
        else recvLoop env fuel n ⟨c2, fs⟩

/-- Lines 246-250: what follows the loop. -/
def receiverCleanup (r : LoopExit × RecvState) : Run :=
  match r.1 with
  | .outOfFuel => ⟨none, r.2.conn.trace⟩
  | _ => ⟨some true,
      r.2.conn.trace ++ [Ev.close .client_sock, Ev.close .server_fd, Ev.destroyAllWindows]⟩

/-- Lines 128-251.  As in `sender_fn` the two address-family branches (lines 143-183)
are one path; `any` is the comparison with the any-address of the family. -/
def receiver_fn (env : ReceiverEnv) (addr : String) (port : Int) (fuel : Nat) : Run :=
  let _ := port
  let ipv6 := is_ipv6 addr
  let t0 := [Ev.socket .server_fd ipv6 env.socketRet]
  if env.socketRet < 0 then ⟨some false, t0⟩ else
  let t1 := t0 ++ [Ev.setsockopt env.setsockoptRet]
  let any := if ipv6 then addr == "::" else addr == "0.0.0.0"
  let t2 := if any then t1 else t1 ++ [Ev.inet_pton ipv6 env.ptonRet]
  if any = false ∧ env.ptonRet ≤ 0 then ⟨some false, t2 ++ [Ev.close .server_fd]⟩ else
  let t3 := t2 ++ [Ev.bind env.bindRet]
  if env.bindRet < 0 then ⟨some false, t3 ++ [Ev.close .server_fd]⟩ else
  let t4 := t3 ++ [Ev.listen env.listenRet]
  if env.listenRet < 0 then ⟨some false, t4 ++ [Ev.close .server_fd]⟩ else
  let t5 := t4 ++ [Ev.accept env.acceptRet]
  if env.acceptRet < 0 then ⟨some false, t5 ++ [Ev.close .server_fd]⟩ else
  receiverCleanup (recvLoop env fuel fuel ⟨⟨env.incoming, 0, t5⟩, []⟩)

/-! ## The entry point (lines 253-280) -/

/-- The exceptions `std::stoi` throws. -/
inductive StoiError where
  | invalid_argument
  | out_of_range
  deriving DecidableEq, Repr

/-- The white-space characters `strtol` skips. -/
def isSpace (c : Char) : Bool :=
  c = ' ' || (9 ≤ c.toNat && c.toNat ≤ 13)

/-- The library function `std::stoi` in base 10: leading white space, an optional
sign, then decimal digits; no digit is `invalid_argument`, a value outside the range
of `int` is `out_of_range`; what follows the digits is ignored. -/
def stoi (s : String) : Except StoiError Int :=
  let cs := s.data.dropWhile isSpace
  let signed : Bool × List Char :=
    match cs with
    | '-' :: t => (true, t)
    | '+' :: t => (false, t)
    | _ => (false, cs)
  let digits := signed.2.takeWhile Char.isDigit
  if digits.isEmpty then .error .invalid_argument else
  let v : Nat := digits.foldl (fun a c => 10 * a + (c.toNat - 48)) 0
  let n : Int := if signed.1 then -(v : Int) else (v : Int)
  if n < -2147483648 ∨ 2147483647 < n then .error .out_of_range else .ok n

/-- The environment of the process: that of each role. -/
structure World where
  sender : SenderEnv
  receiver : ReceiverEnv

/-- How the process ends. -/
inductive MainResult where
  /-- The function `main` returned the code. -/
  | returned (code : Int) (trace : List Ev)
  /-- An exception left `main`: the process is terminated, no code is returned. -/
  | uncaught (e : StoiError) (trace : List Ev)
  /-- The step bound was reached in the role's loop. -/
  | running (trace : List Ev)
  deriving DecidableEq, Repr

/-- The exit code of a role: `sender_fn(ip, port) ? 0 : 1`. -/
def exitOf (r : Run) : MainResult :=
  match r.ret with
  | some true => .returned 0 r.trace
  | some false => .returned 1 r.trace
  | none => .running r.trace

/-- Lines 253-280; `argv` holds the program name and the arguments, `argc` is its
length.  What is printed is not modelled. -/
def main (w : World) (argv : List String) (fuel : Nat) : MainResult :=
  if argv.length ≠ 4 then .returned 1 [] else
  let mode := argv.getD 1 ""
  let ip := argv.getD 2 ""
  match stoi (argv.getD 3 "") with
  | .error e => .uncaught e []
  | .ok port =>
    if mode = "send" then exitOf (sender_fn w.sender ip port fuel)
    else if mode = "receive" then exitOf (receiver_fn w.receiver ip port fuel)
    else .returned 1 []

/-! ## Properties of traces -/

/-- The event creates the socket: a successful `socket` or `accept`. -/
def opens (fd : Fd) : Ev → Bool
  | .socket g _ ret => g = fd && 0 ≤ ret
  | .accept ret => fd = .client_sock && 0 ≤ ret
  | _ => false

/-- The event closes the socket. -/
def closes (fd : Fd) : Ev → Bool
  | .close g => g = fd
  | _ => false

/-- The event is a system call on the socket, `close` included. -/
def touches (fd : Fd) : Ev → Bool
  | .setsockopt _ => fd = .server_fd
  | .bind _ => fd = .server_fd
  | .listen _ => fd = .server_fd
  | .accept _ => fd = .server_fd
  | .connect _ => fd = .sock
  | .write _ _ _ _ => fd = .sock
  | .read _ _ _ _ => fd = .client_sock
  | .close g => g = fd
  | _ => false

/-- No system call on the socket follows a `close` of it. -/
def deadAfterClose (fd : Fd) : List Ev → Bool
  | [] => true
  | e :: t => (if closes fd e then !(t.any (touches fd)) else true) && deadAfterClose fd t

/-- A socket that was opened is closed exactly once and not touched afterwards; one
that was not opened is not touched at all. -/
def released (fd : Fd) (t : List Ev) : Bool :=
  if t.any (opens fd) then t.countP (closes fd) = 1 && deadAfterClose fd t
  else !(t.any (touches fd))

/-- The property `released` for each of the three sockets. -/
def releasedAll (t : List Ev) : Bool :=
  released .sock t && released .server_fd t && released .client_sock t

/-! ## The wire format as the specification words it -/

/-- A 32-bit word as four bytes, least significant first. -/
def le32 (v : Nat) : List Byte :=
  [byteAt v 0, byteAt v 1, byteAt v 2, byteAt v 3]

/-- The value of four bytes read as a little-endian word. -/
def le32Value (a b c d : Byte) : Nat :=
  a.val + 256 * b.val + 65536 * c.val + 16777216 * d.val

/-- One frame on the wire: width, height, length, payload. -/
def frameBytes (width height : Nat) (payload : List Byte) : List Byte :=
  le32 width ++ le32 height ++ le32 payload.length ++ payload

/-- The events of the sender's loop: `write` calls. -/
def senderLoopEv : Ev → Bool
  | .write _ _ _ _ => true
  | _ => false

/-- The events of the receiver's loop: `read` calls, the buffer, and the display. -/
def receiverLoopEv : Ev → Bool
  | .read _ _ _ _ => true
  | .alloc _ => true
  | .imdecode _ _ => true
  | .imshow => true
  | .waitKey _ => true
  | _ => false

/-- A transfer of the payload loops that keeps to the chunk size and to the buffer of
`len` bytes: the requested size is `min(CHUNK_SIZE, len - off)`, between 1 and
`CHUNK_SIZE`, the request ends inside the buffer, and no more is returned than was
requested. -/
def chunkOk (len : Nat) : Ev → Bool
  | .write .payload off req ret =>
    decide (req = min CHUNK_SIZE (len - off)) && decide (1 ≤ req) && decide (req ≤ CHUNK_SIZE)
      && decide (off ≤ len) && decide (off + req ≤ len) && decide (ret ≤ (req : Int))
  | .read .payload off req ret =>
    decide (req = min CHUNK_SIZE (len - off)) && decide (1 ≤ req) && decide (req ≤ CHUNK_SIZE)
      && decide (off ≤ len) && decide (off + req ≤ len) && decide (ret ≤ (req : Int))
  | _ => false

/-- The trace `t'` is `t` followed by events that all satisfy `P`. -/
def Extends (P : Ev → Bool) (t t' : List Ev) : Prop :=
  ∃ evs, t' = t ++ evs ∧ ∀ e ∈ evs, P e = true

theorem word_bytes (v : Nat) (hv : v < 2 ^ 32) :
    ∃ a b c d : Nat, a < 256 ∧ b < 256 ∧ c < 256 ∧ d < 256 ∧
      v = a + 256 * b + 65536 * c + 16777216 * d :=
  ⟨v % 256, v / 256 % 256, v / 256 / 256 % 256, v / 256 / 256 / 256, by omega, by omega,
    by omega, by omega, by omega⟩

theorem bytes_of_word (a b c d : Nat) (ha : a < 256) (hb : b < 256) (hc : c < 256)
    (hd : d < 256) :
    (a + 256 * b + 65536 * c + 16777216 * d) % 256 = a ∧
    (a + 256 * b + 65536 * c + 16777216 * d) / 256 % 256 = b ∧
    (a + 256 * b + 65536 * c + 16777216 * d) / 65536 % 256 = c ∧
    (a + 256 * b + 65536 * c + 16777216 * d) / 16777216 % 256 = d := by
  refine ⟨?_, ?_, ?_, ?_⟩ <;> omega

theorem bswap32_word (a b c d : Nat) (ha : a < 256) (hb : b < 256) (hc : c < 256)
    (hd : d < 256) :
    bswap32 (a + 256 * b + 65536 * c + 16777216 * d)
      = d + 256 * c + 65536 * b + 16777216 * a := by
  obtain ⟨h0, h1, h2, h3⟩ := bytes_of_word a b c d ha hb hc hd
  simp only [bswap32, h0, h1, h2, h3]
  omega

theorem toMem_htole32 (host : ByteOrder) (v : Nat) (hv : v < 2 ^ 32) :
    toMem host (htole32 host v) = le32 v := by
  cases host
  · rfl
  · obtain ⟨a, b, c, d, ha, hb, hc, hd, rfl⟩ := word_bytes v hv
    obtain ⟨h0, h1, h2, h3⟩ := bytes_of_word a b c d ha hb hc hd
    obtain ⟨g0, g1, g2, g3⟩ := bytes_of_word d c b a hd hc hb ha
    simp only [htole32, toMem, le32, byteAt, bswap32_word a b c d ha hb hc hd]
    norm_num
    simp only [h0, h1, h2, h3, g0, g1, g2, g3, and_self]

theorem le32toh_ofMem (host : ByteOrder) (a b c d : Byte) :
    le32toh host (ofMem host [a, b, c, d]) = le32Value a b c d := by
  cases host
  · rfl
  · simp only [le32toh, ofMem, le32Value]
    rw [bswap32_word d.val c.val b.val a.val d.isLt c.isLt b.isLt a.isLt]

theorem le32Value_byteAt (v : Nat) (hv : v < 2 ^ 32) :
    le32Value (byteAt v 0) (byteAt v 1) (byteAt v 2) (byteAt v 3) = v := by
  obtain ⟨a, b, c, d, ha, hb, hc, hd, rfl⟩ := word_bytes v hv
  obtain ⟨h0, h1, h2, h3⟩ := bytes_of_word a b c d ha hb hc hd
  simp only [le32Value, byteAt]
  norm_num
  simp only [h0, h1, h2, h3]

/-! ## The payload loops -/

theorem chunk_pos {len done : Nat} (h : done < len) :
    1 ≤ min CHUNK_SIZE (len - done) := by
  simp only [CHUNK_SIZE]; omega

theorem take_drop_step (data : List Byte) (sent m : Nat) :
    (data.drop sent).take m ++ data.drop (sent + m) = data.drop sent := by
  rw [← List.drop_drop]
  exact List.take_append_drop m (data.drop sent)

theorem sendPayload_short (wr : Nat → Nat → Int) (data : List Byte) (k : Nat)
    (hwr : ∀ i n, k ≤ i → 1 ≤ n → 1 ≤ wr i n ∧ wr i n ≤ n) :
    ∀ (fuel sent : Nat) (c : Tx), k ≤ c.calls → sent ≤ data.length →
      data.length - sent < fuel →
      (sendPayload wr data fuel sent c).1 = .sent ∧
      (sendPayload wr data fuel sent c).2.1 = data.length ∧
      (sendPayload wr data fuel sent c).2.2.wire = c.wire ++ data.drop sent := by
  intro fuel
  induction fuel with
  | zero => intro sent c _ _ h; omega
  | succ fuel ih =>
    intro sent c hk hs hf
    by_cases hlt : sent < data.length
    · obtain ⟨h1, h2⟩ := hwr c.calls _ hk (chunk_pos hlt)
      have hnot : ¬ wr c.calls (min CHUNK_SIZE (data.length - sent)) < 0 := by omega
      have hmin : min CHUNK_SIZE (data.length - sent) ≤ data.length - sent :=
        Nat.min_le_right _ _
      simp only [sendPayload, hlt, if_true, sockWrite, hnot, if_false]
      generalize hr : wr c.calls (min CHUNK_SIZE (data.length - sent)) = r at h1 h2
      obtain ⟨h3, h4, h5⟩ := ih (sent + r.toNat)
        ⟨c.wire ++ ((data.drop sent).take (min CHUNK_SIZE (data.length - sent))).take r.toNat,
          c.calls + 1,
          c.trace ++ [Ev.write .payload sent (min CHUNK_SIZE (data.length - sent)) r]⟩
        (by simp only; omega) (by omega) (by omega)
      refine ⟨h3, h4, ?_⟩
      rw [h5, List.take_take, Nat.min_eq_left (by omega), List.append_assoc, take_drop_step]
    · have : sent = data.length := by omega
      subst this
      simp [sendPayload]

theorem sockRead_ok (rd : Nat → Nat → Int) (c : Rx) (buf : Buf) (off n m : Nat)
    (hr : rd c.calls n = (m : Int)) (hm : m ≤ c.rest.length) :
    sockRead rd c buf off n =
      ((m : Int), c.rest.take m,
        ⟨c.rest.drop m, c.calls + 1, c.trace ++ [Ev.read buf off n (m : Int)]⟩) := by
  have hnot : ¬ ((m : Int) < 0) := by omega
  simp only [sockRead, hr, hnot, if_false, Int.toNat_ofNat, List.length_take,
    Nat.min_eq_left hm]

theorem store_at_end (data junk got : List Byte) (received : Nat)
    (h : received ≤ data.length) :
    store (data.take received ++ junk) received got
      = data.take received ++ got ++ junk.drop got.length := by
  have hl : (data.take received).length = received := by
    rw [List.length_take]; omega
  unfold store
  congr 1
  · congr 1
    exact List.take_left' hl
  · have hsum : received + got.length = (data.take received).length + got.length := by
      rw [hl]
    rw [hsum]
    exact List.drop_append _

theorem recvPayload_short (rd : Nat → Nat → Int) (data tail : List Byte) (k : Nat)
    (hrd : ∀ i n, k ≤ i → 1 ≤ n → 1 ≤ rd i n ∧ rd i n ≤ n) :
    ∀ (fuel received : Nat) (buffer : List Byte) (c : Rx) (junk : List Byte),
      k ≤ c.calls → received ≤ data.length → data.length - received < fuel →
      c.rest = data.drop received ++ tail →
      buffer = data.take received ++ junk → junk.length = data.length - received →
      (recvPayload rd data.length fuel received buffer c).1 = .complete ∧
      (recvPayload rd data.length fuel received buffer c).2.1 = data.length ∧
      (recvPayload rd data.length fuel received buffer c).2.2.1 = data ∧
      (recvPayload rd data.length fuel received buffer c).2.2.2.rest = tail := by
  intro fuel
  induction fuel with
  | zero => intro received _ _ _ _ _ h; omega
  | succ fuel ih =>
    intro received buffer c junk hk hs hf hrest hbuf hjunk
    by_cases hlt : received < data.length
    · obtain ⟨h1, h2⟩ := hrd c.calls _ hk (chunk_pos hlt)
      have hmin : min CHUNK_SIZE (data.length - received) ≤ data.length - received :=
        Nat.min_le_right _ _
      generalize hr : rd c.calls (min CHUNK_SIZE (data.length - received)) = r at h1 h2
      lift r to ℕ using (by omega)
      have hlen : r ≤ c.rest.length := by
        rw [hrest, List.length_append, List.length_drop]; omega
      have hpos : ¬ ((r : Int) ≤ 0) := by omega
      have hgot : c.rest.take r = (data.drop received).take r := by
        rw [hrest]
        exact List.take_append_of_le_length (by rw [List.length_drop]; omega)
      have hgl : ((data.drop received).take r).length = r := by
        rw [List.length_take, List.length_drop]; omega
      simp only [recvPayload, hlt, if_true, sockRead_ok rd c .payload received _ r hr hlen,
        hpos, if_false, Int.toNat_ofNat]
      apply ih (received + r) _ _ (junk.drop r) (by simp only; omega) (by omega) (by omega)
      · show c.rest.drop r = _
        rw [hrest, List.drop_append_of_le_length (by rw [List.length_drop]; omega),
          List.drop_drop]
      · rw [hbuf, hgot, store_at_end data junk _ received hs, hgl, List.take_add]
      · rw [List.length_drop]; omega
    · have : received = data.length := by omega
      subst this
      have hj : junk = [] := List.length_eq_zero.mp (by omega)
      subst hj
      simp only [List.drop_length, List.nil_append] at hrest
      simp [recvPayload, hbuf, hrest]

/-! ## One frame -/

theorem take4_le32 (v : Nat) : (le32 v).take 4 = le32 v := rfl

theorem sendFrame_whole_header (host : ByteOrder) (wr : Nat → Nat → Int) (f : Captured)
    (c : Tx) (hw : f.cols < 2 ^ 32) (hh : f.rows < 2 ^ 32) (hl : f.data.length < 2 ^ 32)
    (h1 : wr c.calls 4 = 4) (h2 : wr (c.calls + 1) 4 = 4) (h3 : wr (c.calls + 2) 4 = 4)
    (fuel : Nat) :
    sendFrame host wr fuel f c =
      ((sendPayload wr f.data fuel 0
          ⟨c.wire ++ le32 f.cols ++ le32 f.rows ++ le32 f.data.length, c.calls + 3,
            c.trace ++ [Ev.write .width_le 0 4 4, Ev.write .height_le 0 4 4,
              Ev.write .len_le 0 4 4]⟩).1,
       (sendPayload wr f.data fuel 0
          ⟨c.wire ++ le32 f.cols ++ le32 f.rows ++ le32 f.data.length, c.calls + 3,
            c.trace ++ [Ev.write .width_le 0 4 4, Ev.write .height_le 0 4 4,
              Ev.write .len_le 0 4 4]⟩).2.2) := by
  have h3' : wr (c.calls + 1 + 1) 4 = 4 := h3
  have hpos : ¬ ((4 : Int) < 0) := by decide
  have h4 : (4 : Int).toNat = 4 := rfl
  simp only [sendFrame, sockWrite, Nat.mod_eq_of_lt hw, Nat.mod_eq_of_lt hh,
    Nat.mod_eq_of_lt hl, toMem_htole32 host _ hw, toMem_htole32 host _ hh,
    toMem_htole32 host _ hl, h1, h2, h3', hpos, if_false, h4, take4_le32,
    List.append_assoc, List.singleton_append, List.cons_append, List.nil_append]

theorem sendFrame_short (host : ByteOrder) (wr : Nat → Nat → Int) (f : Captured)
    (c : Tx) (hw : f.cols < 2 ^ 32) (hh : f.rows < 2 ^ 32) (hl : f.data.length < 2 ^ 32)
    (h1 : wr c.calls 4 = 4) (h2 : wr (c.calls + 1) 4 = 4) (h3 : wr (c.calls + 2) 4 = 4)
    (hp : ∀ i n, c.calls + 3 ≤ i → 1 ≤ n → 1 ≤ wr i n ∧ wr i n ≤ n)
    (fuel : Nat) (hf : f.data.length < fuel) :
    (sendFrame host wr fuel f c).1 = .sent ∧
    (sendFrame host wr fuel f c).2.wire = c.wire ++ frameBytes f.cols f.rows f.data := by
  rw [sendFrame_whole_header host wr f c hw hh hl h1 h2 h3 fuel]
  obtain ⟨a1, _, a3⟩ := sendPayload_short wr f.data (c.calls + 3) hp fuel 0
    ⟨c.wire ++ le32 f.cols ++ le32 f.rows ++ le32 f.data.length, c.calls + 3,
      c.trace ++ [Ev.write .width_le 0 4 4, Ev.write .height_le 0 4 4,
        Ev.write .len_le 0 4 4]⟩ (Nat.le_refl _) (Nat.zero_le _) (by omega)
  refine ⟨a1, ?_⟩
  rw [a3]
  simp only [frameBytes, List.drop_zero, List.append_assoc]


theorem le32toh_le32 (host : ByteOrder) (v : Nat) (hv : v < 2 ^ 32) :
    le32toh host (ofMem host (le32 v)) = v := by
  show le32toh host (ofMem host [byteAt v 0, byteAt v 1, byteAt v 2, byteAt v 3]) = v
  rw [le32toh_ofMem, le32Value_byteAt v hv]

theorem take4_le32_append (v : Nat) (t : List Byte) : (le32 v ++ t).take 4 = le32 v := rfl

theorem drop4_le32_append (v : Nat) (t : List Byte) : (le32 v ++ t).drop 4 = t := rfl

theorem le32_length_cast (v : Nat) : ((le32 v).length : Int) = 4 := rfl

theorem recvFrame_short (host : ByteOrder) (rd : Nat → Nat → Int) (c : Rx)
    (a b : Nat) (data tail : List Byte) (ha : a < 2 ^ 32) (hb : b < 2 ^ 32)
    (hl : data.length ≤ MAX_FRAME_LEN)
    (hrest : c.rest = frameBytes a b data ++ tail)
    (h1 : rd c.calls 4 = 4) (h2 : rd (c.calls + 1) 4 = 4) (h3 : rd (c.calls + 2) 4 = 4)
    (hp : ∀ i n, c.calls + 3 ≤ i → 1 ≤ n → 1 ≤ rd i n ∧ rd i n ≤ n)
    (fuel : Nat) (hf : data.length < fuel) :
    (recvFrame host rd fuel c).1 = .frame a b data.length data ∧
    (recvFrame host rd fuel c).2.rest = tail := by
  have h3' : rd (c.calls + 1 + 1) 4 = 4 := h3
  have hpos : ¬ ((4 : Int) < 0) := by decide
  have h4 : (4 : Int).toNat = 4 := rfl
  have hl32 : data.length < 2 ^ 32 := by
    have : MAX_FRAME_LEN < 2 ^ 32 := by decide
    omega
  have hsmall : ¬ (MAX_FRAME_LEN < data.length) := by omega
  obtain ⟨p1, _, p3, p4⟩ := recvPayload_short rd data tail (c.calls + 3) hp fuel 0
    (List.replicate data.length 0)
    ⟨data ++ tail, c.calls + 1 + 1 + 1,
      c.trace ++ [Ev.read .width_le 0 4 4] ++ [Ev.read .height_le 0 4 4]
        ++ [Ev.read .len_le 0 4 4] ++ [Ev.alloc data.length]⟩
    (List.replicate data.length 0) (Nat.le_refl _) (Nat.zero_le _) (by omega)
    (by simp) (by simp) (by simp)
  simp only [frameBytes] at hrest
  simp only [recvFrame, sockRead, hrest, h1, h2, h3', hpos, if_false, h4,
    List.append_assoc, take4_le32_append, drop4_le32_append, le32_length_cast,
    le32toh_le32 host a ha, le32toh_le32 host b hb, le32toh_le32 host _ hl32, ne_eq,
    not_true_eq_false, gt_iff_lt, hsmall, Nat.cast_ofNat]
  simp only [List.append_assoc] at p1 p3 p4
  simp only [p1, p3, p4, and_self]

/-! ## Traces only grow -/

theorem Extends.refl (P : Ev → Bool) (t : List Ev) : Extends P t t :=
  ⟨[], by simp, by simp⟩

theorem Extends.trans {P : Ev → Bool} {t u v : List Ev} (h1 : Extends P t u)
    (h2 : Extends P u v) : Extends P t v := by
  obtain ⟨a, rfl, ha⟩ := h1
  obtain ⟨b, rfl, hb⟩ := h2
  refine ⟨a ++ b, by simp, ?_⟩
  intro e he
  rcases List.mem_append.mp he with h | h
  · exact ha e h
  · exact hb e h

theorem Extends.snoc {P : Ev → Bool} (t : List Ev) {e : Ev} (h : P e = true) :
    Extends P t (t ++ [e]) :=
  ⟨[e], rfl, by simpa using h⟩

theorem Extends.snoc2 {P : Ev → Bool} (t : List Ev) {e1 e2 : Ev} (h1 : P e1 = true)
    (h2 : P e2 = true) : Extends P t (t ++ [e1, e2]) :=
  ⟨[e1, e2], rfl, by
    intro e he
    rcases List.mem_cons.mp he with h | h
    · exact h ▸ h1
    · rcases List.mem_cons.mp h with h | h
      · exact h ▸ h2
      · cases h⟩

theorem sockWrite_trace (wr : Nat → Nat → Int) (c : Tx) (buf : Buf) (off : Nat)
    (mem : List Byte) (n : Nat) :
    Extends senderLoopEv c.trace (sockWrite wr c buf off mem n).2.trace :=
  Extends.snoc _ rfl

theorem sockRead_trace (rd : Nat → Nat → Int) (c : Rx) (buf : Buf) (off n : Nat) :
    Extends receiverLoopEv c.trace (sockRead rd c buf off n).2.2.trace := by
  by_cases h : rd c.calls n < 0
  · simp only [sockRead, h, if_true]
    exact Extends.snoc _ rfl
  · simp only [sockRead, h, if_false]
    exact Extends.snoc _ rfl

theorem sendPayload_trace (wr : Nat → Nat → Int) (data : List Byte) :
    ∀ (fuel sent : Nat) (c : Tx),
      Extends senderLoopEv c.trace (sendPayload wr data fuel sent c).2.2.trace := by
  intro fuel
  induction fuel with
  | zero => intro sent c; exact Extends.refl _ _
  | succ fuel ih =>
    intro sent c
    simp only [sendPayload]
    split
    · split
      · exact sockWrite_trace _ _ _ _ _ _
      · exact (sockWrite_trace _ _ _ _ _ _).trans (ih _ _)
    · exact Extends.refl _ _

theorem sendFrame_trace (host : ByteOrder) (wr : Nat → Nat → Int) (fuel : Nat)
    (f : Captured) (c : Tx) :
    Extends senderLoopEv c.trace (sendFrame host wr fuel f c).2.trace := by
  simp only [sendFrame]
  split
  · exact sockWrite_trace _ _ _ _ _ _
  · split
    · exact (sockWrite_trace _ _ _ _ _ _).trans (sockWrite_trace _ _ _ _ _ _)
    · split
      · exact ((sockWrite_trace _ _ _ _ _ _).trans (sockWrite_trace _ _ _ _ _ _)).trans
          (sockWrite_trace _ _ _ _ _ _)
      · exact (((sockWrite_trace _ _ _ _ _ _).trans (sockWrite_trace _ _ _ _ _ _)).trans
          (sockWrite_trace _ _ _ _ _ _)).trans (sendPayload_trace _ _ _ _ _)

theorem sendLoop_trace (env : SenderEnv) (fuel : Nat) :
    ∀ (n i : Nat) (c : Tx),
      Extends senderLoopEv c.trace (sendLoop env fuel n i c).2.trace := by
  intro n
  induction n with
  | zero => intro i c; exact Extends.refl _ _
  | succ n ih =>
    intro i c
    simp only [sendLoop]
    split
    · exact ih _ _
    · exact ih _ _
    · split
      · exact (sendFrame_trace _ _ _ _ _).trans (ih _ _)
      · exact sendFrame_trace _ _ _ _ _

theorem recvPayload_trace (rd : Nat → Nat → Int) (frame_len : Nat) :
    ∀ (fuel received : Nat) (buffer : List Byte) (c : Rx),
      Extends receiverLoopEv c.trace
        (recvPayload rd frame_len fuel received buffer c).2.2.2.trace := by
  intro fuel
  induction fuel with
  | zero => intro received buffer c; exact Extends.refl _ _
  | succ fuel ih =>
    intro received buffer c
    simp only [recvPayload]
    split
    · split
      · exact sockRead_trace _ _ _ _ _
      · exact (sockRead_trace _ _ _ _ _).trans (ih _ _ _)
    · exact Extends.refl _ _

theorem recvFrame_trace (host : ByteOrder) (rd : Nat → Nat → Int) (fuel : Nat) (c : Rx) :
    Extends receiverLoopEv c.trace (recvFrame host rd fuel c).2.trace := by
  have r1 := sockRead_trace rd c .width_le 0 4
  have r2 := r1.trans (sockRead_trace rd (sockRead rd c .width_le 0 4).2.2 .height_le 0 4)
  have r3 := r2.trans (sockRead_trace rd
    (sockRead rd (sockRead rd c .width_le 0 4).2.2 .height_le 0 4).2.2 .len_le 0 4)
  simp only [recvFrame]
  split
  · exact r1
  · split
    · exact r2
    · split
      · exact r3
      · split
        · exact r3
        · split <;>
            exact (r3.trans (@Extends.snoc _ _ (Ev.alloc _) rfl)).trans
              (recvPayload_trace rd _ fuel 0 (List.replicate _ 0) _)

theorem recvLoop_trace (env : ReceiverEnv) (fuel : Nat) :
    ∀ (n : Nat) (s : RecvState),
      Extends receiverLoopEv s.conn.trace (recvLoop env fuel n s).2.conn.trace := by
  intro n
  induction n with
  | zero => intro s; exact Extends.refl _ _
  | succ n ih =>
    intro s
    have hf := recvFrame_trace env.host env.rd fuel s.conn
    simp only [recvLoop]
    split
    · exact hf
    · exact hf
    · exact hf
    · exact hf
    · split
      · exact (hf.trans (@Extends.snoc _ _ (Ev.imdecode _ _) rfl)).trans (ih _)
      · split
        · exact (hf.trans (@Extends.snoc _ _ (Ev.imdecode _ _) rfl)).trans
            (@Extends.snoc2 _ _ Ev.imshow (Ev.waitKey _) rfl rfl)
        · exact ((hf.trans (@Extends.snoc _ _ (Ev.imdecode _ _) rfl)).trans
            (@Extends.snoc2 _ _ Ev.imshow (Ev.waitKey _) rfl rfl)).trans (ih _)

/-! ## Release of the sockets -/

theorem deadAfterClose_append (fd : Fd) (a b : List Ev)
    (h : ∀ e ∈ a, closes fd e = false) :
    deadAfterClose fd (a ++ b) = deadAfterClose fd b := by
  induction a with
  | nil => rfl
  | cons e a ih =>
    have he : closes fd e = false := h e (List.mem_cons_self _ _)
    have ha : ∀ x ∈ a, closes fd x = false := fun x hx => h x (List.mem_cons_of_mem _ hx)
    rw [List.cons_append]
    simp only [deadAfterClose, he, Bool.false_eq_true, if_false, Bool.true_and]
    exact ih ha

theorem any_false_of_forall {p : Ev → Bool} {l : List Ev} (h : ∀ e ∈ l, p e = false) :
    l.any p = false := by
  induction l with
  | nil => rfl
  | cons e l ih =>
    simp only [List.any_cons, h e (List.mem_cons_self _ _), Bool.false_or]
    exact ih (fun x hx => h x (List.mem_cons_of_mem _ hx))

theorem countP_zero_of_forall {p : Ev → Bool} {l : List Ev} (h : ∀ e ∈ l, p e = false) :
    l.countP p = 0 := by
  induction l with
  | nil => rfl
  | cons e l ih =>
    rw [List.countP_cons_of_neg]
    · exact ih (fun x hx => h x (List.mem_cons_of_mem _ hx))
    · simp [h e (List.mem_cons_self _ _)]

theorem receiverLoopEv_quiet {e : Ev} (h : receiverLoopEv e = true) (fd : Fd) :
    opens fd e = false ∧ closes fd e = false ∧ touches .sock e = false ∧
      touches .server_fd e = false := by
  cases e <;> simp_all [receiverLoopEv, opens, closes, touches]

theorem senderLoopEv_quiet {e : Ev} (h : senderLoopEv e = true) (fd : Fd) :
    opens fd e = false ∧ closes fd e = false ∧ touches .client_sock e = false ∧
      touches .server_fd e = false := by
  cases e <;> simp_all [senderLoopEv, opens, closes, touches]

/-- The receiver's trace once the loop is left: set-up, loop, the two `close` calls. -/
theorem released_receiver (t5 evs : List Ev) (hevs : ∀ e ∈ evs, receiverLoopEv e = true)
    (hs : t5.any (opens .server_fd) = true) (hc : t5.any (opens .client_sock) = true)
    (hk : t5.any (opens .sock) = false) (hkt : t5.any (touches .sock) = false)
    (hcl : ∀ fd, ∀ e ∈ t5, closes fd e = false) :
    releasedAll (t5 ++ evs ++
      [Ev.close .client_sock, Ev.close .server_fd, Ev.destroyAllWindows]) = true := by
  have e1 : ∀ fd, evs.any (opens fd) = false := fun fd =>
    any_false_of_forall (fun e he => (receiverLoopEv_quiet (hevs e he) fd).1)
  have e2 : ∀ fd, ∀ e ∈ evs, closes fd e = false := fun fd e he =>
    (receiverLoopEv_quiet (hevs e he) fd).2.1
  have e3 : evs.any (touches .sock) = false :=
    any_false_of_forall (fun e he => (receiverLoopEv_quiet (hevs e he) .sock).2.2.1)
  have c1 : ∀ fd, (t5 ++ evs).countP (closes fd) = 0 := fun fd =>
    countP_zero_of_forall (fun e he => by
      rcases List.mem_append.mp he with h | h
      · exact hcl fd e h
      · exact e2 fd e h)
  have d1 : ∀ fd, ∀ e ∈ t5 ++ evs, closes fd e = false := fun fd e he => by
    rcases List.mem_append.mp he with h | h
    · exact hcl fd e h
    · exact e2 fd e h
  simp only [releasedAll, released, List.any_append, List.countP_append, hs, hc, hk, hkt,
    e1, e3, c1, deadAfterClose_append _ _ _ (d1 _), Bool.or_false, Bool.true_or, if_true]
  decide

/-- The sender's trace once the loop is left: set-up, loop, the `close` call. -/
theorem released_sender (t3 evs : List Ev) (hevs : ∀ e ∈ evs, senderLoopEv e = true)
    (hk : t3.any (opens .sock) = true)
    (hs : t3.any (opens .server_fd) = false) (hc : t3.any (opens .client_sock) = false)
    (hst : t3.any (touches .server_fd) = false) (hct : t3.any (touches .client_sock) = false)
    (hcl : ∀ fd, ∀ e ∈ t3, closes fd e = false) :
    releasedAll (t3 ++ evs ++ [Ev.close .sock]) = true := by
  have e1 : ∀ fd, evs.any (opens fd) = false := fun fd =>
    any_false_of_forall (fun e he => (senderLoopEv_quiet (hevs e he) fd).1)
  have e2 : ∀ fd, ∀ e ∈ evs, closes fd e = false := fun fd e he =>
    (senderLoopEv_quiet (hevs e he) fd).2.1
  have e3 : evs.any (touches .client_sock) = false :=
    any_false_of_forall (fun e he => (senderLoopEv_quiet (hevs e he) .sock).2.2.1)
  have e4 : evs.any (touches .server_fd) = false :=
    any_false_of_forall (fun e he => (senderLoopEv_quiet (hevs e he) .sock).2.2.2)
  have c1 : ∀ fd, (t3 ++ evs).countP (closes fd) = 0 := fun fd =>
    countP_zero_of_forall (fun e he => by
      rcases List.mem_append.mp he with h | h
      · exact hcl fd e h
      · exact e2 fd e h)
  have d1 : ∀ fd, ∀ e ∈ t3 ++ evs, closes fd e = false := fun fd e he => by
    rcases List.mem_append.mp he with h | h
    · exact hcl fd e h
    · exact e2 fd e h
  simp only [releasedAll, released, List.any_append, List.countP_append, hs, hc, hk, hst, hct,
    e1, e3, e4, c1, deadAfterClose_append _ _ _ (d1 _), Bool.or_false, Bool.true_or, if_true]
  decide

theorem receiverCleanup_released (t5 : List Ev) (r : LoopExit × RecvState)
    (hext : Extends receiverLoopEv t5 r.2.conn.trace)
    (hs : t5.any (opens .server_fd) = true) (hc : t5.any (opens .client_sock) = true)
    (hk : t5.any (opens .sock) = false) (hkt : t5.any (touches .sock) = false)
    (hcl : ∀ fd, ∀ e ∈ t5, closes fd e = false)
    (hret : (receiverCleanup r).ret ≠ none) :
    releasedAll (receiverCleanup r).trace = true := by
  obtain ⟨evs, hevs, hall⟩ := hext
  have key := released_receiver t5 evs hall hs hc hk hkt hcl
  rw [← hevs] at key
  unfold receiverCleanup at hret ⊢
  cases h : r.1 <;> simp only [h] at hret ⊢ <;> first | exact key | exact absurd rfl hret

theorem receiver_fn_released (env : ReceiverEnv) (addr : String) (port : Int) (fuel : Nat)
    (hret : (receiver_fn env addr port fuel).ret ≠ none) :
    releasedAll (receiver_fn env addr port fuel).trace = true := by
  unfold receiver_fn at hret ⊢
  simp only at hret ⊢
  generalize (if is_ipv6 addr = true then addr == "::" else addr == "0.0.0.0") = any
    at hret ⊢
  by_cases h0 : env.socketRet < 0
  · simp [h0, releasedAll, released, opens, closes, touches, deadAfterClose]
  have g0 : 0 ≤ env.socketRet := by omega
  simp only [h0, if_false] at hret ⊢
  cases any
  · simp only [true_and, Bool.false_eq_true, if_false] at hret ⊢
    by_cases h1 : env.ptonRet ≤ 0
    · simp [h1, releasedAll, released, opens, closes, touches, deadAfterClose, g0]
    by_cases h2 : env.bindRet < 0
    · simp [h1, h2, releasedAll, released, opens, closes, touches, deadAfterClose, g0]
    by_cases h3 : env.listenRet < 0
    · simp [h1, h2, h3, releasedAll, released, opens, closes, touches, deadAfterClose, g0]
    by_cases h4 : env.acceptRet < 0
    · simp [h1, h2, h3, h4, releasedAll, released, opens, closes, touches, deadAfterClose, g0]
    have g4 : 0 ≤ env.acceptRet := by omega
    simp only [h1, h2, h3, h4, if_false] at hret ⊢
    refine receiverCleanup_released _ _ (recvLoop_trace env fuel fuel _) ?_ ?_ ?_ ?_ ?_ hret
    all_goals simp [opens, closes, touches, g0, g4]
  · simp only [Bool.true_eq_false, false_and, if_false, if_true] at hret ⊢
    by_cases h2 : env.bindRet < 0
    · simp [h2, releasedAll, released, opens, closes, touches, deadAfterClose, g0]
    by_cases h3 : env.listenRet < 0
    · simp [h2, h3, releasedAll, released, opens, closes, touches, deadAfterClose, g0]
    by_cases h4 : env.acceptRet < 0
    · simp [h2, h3, h4, releasedAll, released, opens, closes, touches, deadAfterClose, g0]
    have g4 : 0 ≤ env.acceptRet := by omega
    simp only [h2, h3, h4, if_false] at hret ⊢
    refine receiverCleanup_released _ _ (recvLoop_trace env fuel fuel _) ?_ ?_ ?_ ?_ ?_ hret
    all_goals simp [opens, closes, touches, g0, g4]

theorem sender_fn_released (env : SenderEnv) (addr : String) (port : Int) (fuel : Nat)
    (hret : (sender_fn env addr port fuel).ret ≠ none) :
    releasedAll (sender_fn env addr port fuel).trace = true := by
  unfold sender_fn at hret ⊢
  simp only at hret ⊢
  by_cases h0 : env.socketRet < 0
  · simp [h0, releasedAll, released, opens, closes, touches, deadAfterClose]
  have g0 : 0 ≤ env.socketRet := by omega
  by_cases h1 : env.ptonRet ≤ 0
  · simp [h0, h1, releasedAll, released, opens, closes, touches, deadAfterClose, g0]
  by_cases h2 : env.connectRet < 0
  · simp [h0, h1, h2, releasedAll, released, opens, closes, touches, deadAfterClose, g0]
  cases h3 : env.camOpened
  · simp [h0, h1, h2, releasedAll, released, opens, closes, touches, deadAfterClose, g0]
  simp only [h0, h1, h2, h3, if_false, Bool.true_eq_false] at hret ⊢
  obtain ⟨evs, hevs, hall⟩ := sendLoop_trace env fuel fuel 0
    ⟨[], 0, [Ev.socket .sock (is_ipv6 addr) env.socketRet]
      ++ [Ev.inet_pton (is_ipv6 addr) env.ptonRet] ++ [Ev.connect env.connectRet]
      ++ [Ev.camOpen true]⟩
  have key := released_sender
    ([Ev.socket .sock (is_ipv6 addr) env.socketRet]
      ++ [Ev.inet_pton (is_ipv6 addr) env.ptonRet] ++ [Ev.connect env.connectRet]
      ++ [Ev.camOpen true]) evs hall
    (by simp [opens, g0]) (by simp [opens]) (by simp [opens]) (by simp [touches])
    (by simp [touches]) (by intro fd; simp [closes])
  rw [← hevs] at key
  split at hret <;> first | exact key | exact absurd rfl hret

/-! ## Chunk sizes and buffer bounds -/

theorem sockRead_facts (rd : Nat → Nat → Int) (c : Rx) (buf : Buf) (off n : Nat) :
    (sockRead rd c buf off n).2.2.trace
        = c.trace ++ [Ev.read buf off n (sockRead rd c buf off n).1] ∧
      (sockRead rd c buf off n).1 ≤ rd c.calls n ∧
      (0 ≤ (sockRead rd c buf off n).1 →
        ((sockRead rd c buf off n).2.1.length : Int) = (sockRead rd c buf off n).1) ∧
      (sockRead rd c buf off n).2.2.rest.length + (sockRead rd c buf off n).2.1.length
        = c.rest.length := by
  by_cases h : rd c.calls n < 0
  · simp only [sockRead, h, if_true, List.length_nil, Nat.cast_zero, Nat.add_zero, le_refl,
      true_and, and_true]
    intro h2; omega
  · simp only [sockRead, h, if_false, List.length_take, List.length_drop, true_and, implies_true]
    omega

theorem chunkOk_write {len sent : Nat} {ret : Int} (hlt : sent < len)
    (hret : ret ≤ (min CHUNK_SIZE (len - sent) : Nat)) :
    chunkOk len (Ev.write .payload sent (min CHUNK_SIZE (len - sent)) ret) = true := by
  have h1 := chunk_pos hlt
  have h2 : min CHUNK_SIZE (len - sent) ≤ CHUNK_SIZE := Nat.min_le_left _ _
  have h3 : min CHUNK_SIZE (len - sent) ≤ len - sent := Nat.min_le_right _ _
  simp only [chunkOk, decide_True, Bool.true_and, Bool.and_eq_true, decide_eq_true_eq]
  refine ⟨⟨⟨⟨h1, h2⟩, ?_⟩, ?_⟩, hret⟩ <;> omega

theorem chunkOk_read {len received : Nat} {ret : Int} (hlt : received < len)
    (hret : ret ≤ (min CHUNK_SIZE (len - received) : Nat)) :
    chunkOk len (Ev.read .payload received (min CHUNK_SIZE (len - received)) ret) = true := by
  have h1 := chunk_pos hlt
  have h2 : min CHUNK_SIZE (len - received) ≤ CHUNK_SIZE := Nat.min_le_left _ _
  have h3 : min CHUNK_SIZE (len - received) ≤ len - received := Nat.min_le_right _ _
  simp only [chunkOk, decide_True, Bool.true_and, Bool.and_eq_true, decide_eq_true_eq]
  refine ⟨⟨⟨⟨h1, h2⟩, ?_⟩, ?_⟩, hret⟩ <;> omega

theorem sendPayload_bounds (wr : Nat → Nat → Int) (hwr : ∀ i n, wr i n ≤ (n : Int))
    (data : List Byte) :
    ∀ (fuel sent : Nat) (c : Tx), sent ≤ data.length →
      Extends (chunkOk data.length) c.trace (sendPayload wr data fuel sent c).2.2.trace ∧
      (sendPayload wr data fuel sent c).2.1 ≤ data.length := by
  intro fuel
  induction fuel with
  | zero => intro sent c hs; exact ⟨Extends.refl _ _, hs⟩
  | succ fuel ih =>
    intro sent c hs
    by_cases hlt : sent < data.length
    · have hr := hwr c.calls (min CHUNK_SIZE (data.length - sent))
      have h3 : min CHUNK_SIZE (data.length - sent) ≤ data.length - sent :=
        Nat.min_le_right _ _
      have hstep : Extends (chunkOk data.length) c.trace
          (sockWrite wr c .payload sent (data.drop sent)
            (min CHUNK_SIZE (data.length - sent))).2.trace :=
        Extends.snoc _ (chunkOk_write hlt hr)
      simp only [sendPayload, hlt, if_true]
      split
      · exact ⟨hstep, hs⟩
      · obtain ⟨a, b⟩ := ih (sent + (sockWrite wr c .payload sent (data.drop sent)
            (min CHUNK_SIZE (data.length - sent))).1.toNat)
          (sockWrite wr c .payload sent (data.drop sent)
            (min CHUNK_SIZE (data.length - sent))).2
          (by simp only [sockWrite]; omega)
        exact ⟨hstep.trans a, b⟩
    · simp only [sendPayload, hlt, if_false]
      exact ⟨Extends.refl _ _, hs⟩

theorem store_length (buffer got : List Byte) (received : Nat)
    (h : received + got.length ≤ buffer.length) :
    (store buffer received got).length = buffer.length := by
  simp only [store, List.length_append, List.length_take, List.length_drop]
  omega

theorem recvPayload_bounds (rd : Nat → Nat → Int) (hrd : ∀ i n, rd i n ≤ (n : Int))
    (frame_len : Nat) :
    ∀ (fuel received : Nat) (buffer : List Byte) (c : Rx), received ≤ frame_len →
      buffer.length = frame_len →
      Extends (chunkOk frame_len) c.trace
        (recvPayload rd frame_len fuel received buffer c).2.2.2.trace ∧
      (recvPayload rd frame_len fuel received buffer c).2.1 ≤ frame_len ∧
      (recvPayload rd frame_len fuel received buffer c).2.2.1.length = frame_len := by
  intro fuel
  induction fuel with
  | zero => intro received buffer c hs hb; exact ⟨Extends.refl _ _, hs, hb⟩
  | succ fuel ih =>
    intro received buffer c hs hb
    by_cases hlt : received < frame_len
    · have hr := hrd c.calls (min CHUNK_SIZE (frame_len - received))
      have h3 : min CHUNK_SIZE (frame_len - received) ≤ frame_len - received :=
        Nat.min_le_right _ _
      obtain ⟨f1, f2, f3, _⟩ := sockRead_facts rd c .payload received
        (min CHUNK_SIZE (frame_len - received))
      have hstep : Extends (chunkOk frame_len) c.trace
          (sockRead rd c .payload received
            (min CHUNK_SIZE (frame_len - received))).2.2.trace := by
        rw [f1]
        exact Extends.snoc _ (chunkOk_read hlt (le_trans f2 hr))
      simp only [recvPayload, hlt, if_true]
      split
      · exact ⟨hstep, hs, hb⟩
      · rename_i hpos
        have f3' := f3 (by omega)
        obtain ⟨a, b, d⟩ := ih (received + (sockRead rd c .payload received
            (min CHUNK_SIZE (frame_len - received))).1.toNat)
          (store buffer received (sockRead rd c .payload received
            (min CHUNK_SIZE (frame_len - received))).2.1)
          (sockRead rd c .payload received (min CHUNK_SIZE (frame_len - received))).2.2
          (by omega) (by rw [store_length _ _ _ (by omega)]; exact hb)
        exact ⟨hstep.trans a, b, d⟩
    · simp only [recvPayload, hlt, if_false]
      exact ⟨Extends.refl _ _, hs, hb⟩

/-! ## The receiver's frame body after a whole header -/

theorem recvFrame_header (host : ByteOrder) (rd : Nat → Nat → Int) (c : Rx)
    (a0 a1 a2 a3 b0 b1 b2 b3 l0 l1 l2 l3 : Byte) (tail : List Byte)
    (hrest : c.rest = a0 :: a1 :: a2 :: a3 :: b0 :: b1 :: b2 :: b3 :: l0 :: l1 :: l2 :: l3 :: tail)
    (h1 : rd c.calls 4 = 4) (h2 : rd (c.calls + 1) 4 = 4) (h3 : rd (c.calls + 2) 4 = 4)
    (fuel : Nat) :
    recvFrame host rd fuel c =
      if le32Value l0 l1 l2 l3 > MAX_FRAME_LEN then
        (.tooLarge (le32Value l0 l1 l2 l3), ⟨tail, c.calls + 3,
          c.trace ++ [Ev.read .width_le 0 4 4, Ev.read .height_le 0 4 4,
            Ev.read .len_le 0 4 4]⟩)
      else
        match (recvPayload rd (le32Value l0 l1 l2 l3) fuel 0
            (List.replicate (le32Value l0 l1 l2 l3) 0)
            ⟨tail, c.calls + 3,
              c.trace ++ [Ev.read .width_le 0 4 4, Ev.read .height_le 0 4 4,
                Ev.read .len_le 0 4 4, Ev.alloc (le32Value l0 l1 l2 l3)]⟩).1 with
        | .complete =>
          (.frame (le32Value a0 a1 a2 a3) (le32Value b0 b1 b2 b3) (le32Value l0 l1 l2 l3)
            (recvPayload rd (le32Value l0 l1 l2 l3) fuel 0
              (List.replicate (le32Value l0 l1 l2 l3) 0)
              ⟨tail, c.calls + 3,
                c.trace ++ [Ev.read .width_le 0 4 4, Ev.read .height_le 0 4 4,
                  Ev.read .len_le 0 4 4, Ev.alloc (le32Value l0 l1 l2 l3)]⟩).2.2.1,
           (recvPayload rd (le32Value l0 l1 l2 l3) fuel 0
              (List.replicate (le32Value l0 l1 l2 l3) 0)
              ⟨tail, c.calls + 3,
                c.trace ++ [Ev.read .width_le 0 4 4, Ev.read .height_le 0 4 4,
                  Ev.read .len_le 0 4 4, Ev.alloc (le32Value l0 l1 l2 l3)]⟩).2.2.2)
        | .midFrame =>
          (.midFrame,
           (recvPayload rd (le32Value l0 l1 l2 l3) fuel 0
              (List.replicate (le32Value l0 l1 l2 l3) 0)
              ⟨tail, c.calls + 3,
                c.trace ++ [Ev.read .width_le 0 4 4, Ev.read .height_le 0 4 4,
                  Ev.read .len_le 0 4 4, Ev.alloc (le32Value l0 l1 l2 l3)]⟩).2.2.2)
        | .outOfFuel =>
          (.outOfFuel,
           (recvPayload rd (le32Value l0 l1 l2 l3) fuel 0
              (List.replicate (le32Value l0 l1 l2 l3) 0)
              ⟨tail, c.calls + 3,
                c.trace ++ [Ev.read .width_le 0 4 4, Ev.read .height_le 0 4 4,
                  Ev.read .len_le 0 4 4, Ev.alloc (le32Value l0 l1 l2 l3)]⟩).2.2.2) := by
  have h3' : rd (c.calls + 1 + 1) 4 = 4 := h3
  have hpos : ¬ ((4 : Int) < 0) := by decide
  have h4 : (4 : Int).toNat = 4 := rfl
  have t4 : ∀ (x0 x1 x2 x3 : Byte) (t : List Byte),
      (x0 :: x1 :: x2 :: x3 :: t).take 4 = [x0, x1, x2, x3] := fun _ _ _ _ _ => rfl
  have d4 : ∀ (x0 x1 x2 x3 : Byte) (t : List Byte),
      (x0 :: x1 :: x2 :: x3 :: t).drop 4 = t := fun _ _ _ _ _ => rfl
  have l4 : ∀ (x0 x1 x2 x3 : Byte), (([x0, x1, x2, x3] : List Byte).length : Int) = 4 :=
    fun _ _ _ _ => rfl
  simp only [recvFrame, sockRead, hrest, h1, h2, h3', hpos, if_false, h4, t4, d4, l4,
    le32toh_ofMem, ne_eq, not_true_eq_false, List.append_assoc, List.singleton_append,
    List.cons_append, List.nil_append, Nat.cast_ofNat]

theorem recvPayload_total (rd : Nat → Nat → Int) (frame_len : Nat) :
    ∀ (fuel received : Nat) (buffer : List Byte) (c : Rx), frame_len - received < fuel →
      (recvPayload rd frame_len fuel received buffer c).1 ≠ .outOfFuel := by
  intro fuel
  induction fuel with
  | zero => intro received buffer c h; omega
  | succ fuel ih =>
    intro received buffer c h
    simp only [recvPayload]
    split
    · split
      · simp
      · exact ih _ _ _ (by omega)
    · simp

theorem recvPayload_conserve (rd : Nat → Nat → Int) (frame_len : Nat) :
    ∀ (fuel received : Nat) (buffer : List Byte) (c : Rx),
      (recvPayload rd frame_len fuel received buffer c).2.1
          + (recvPayload rd frame_len fuel received buffer c).2.2.2.rest.length
        = received + c.rest.length ∧
      ((recvPayload rd frame_len fuel received buffer c).1 = .complete →
        frame_len ≤ (recvPayload rd frame_len fuel received buffer c).2.1) := by
  intro fuel
  induction fuel with
  | zero => intro received buffer c; exact ⟨rfl, by simp [recvPayload]⟩
  | succ fuel ih =>
    intro received buffer c
    obtain ⟨_, _, f3, f4⟩ := sockRead_facts rd c .payload received
      (min CHUNK_SIZE (frame_len - received))
    simp only [recvPayload]
    split
    · split
      · rename_i hle
        refine ⟨?_, by simp⟩
        simp only
        by_cases hneg : rd c.calls (min CHUNK_SIZE (frame_len - received)) < 0
        · simp [sockRead, hneg]
        · have := f3 (by simp [sockRead, hneg])
          omega
      · rename_i hpos
        obtain ⟨a, b⟩ := ih (received + (sockRead rd c .payload received
            (min CHUNK_SIZE (frame_len - received))).1.toNat)
          (store buffer received (sockRead rd c .payload received
            (min CHUNK_SIZE (frame_len - received))).2.1)
          (sockRead rd c .payload received (min CHUNK_SIZE (frame_len - received))).2.2
        have f3' := f3 (by omega)
        exact ⟨by omega, b⟩
    · rename_i hge
      refine ⟨rfl, fun _ => ?_⟩
      show frame_len ≤ received
      omega

/-! ## The loops over a stream of frames -/

theorem recvFrame_first_short (host : ByteOrder) (rd : Nat → Nat → Int) (fuel : Nat) (c : Rx)
    (h : (sockRead rd c .width_le 0 4).1 ≠ 4) :
    recvFrame host rd fuel c = (.metaFailed, (sockRead rd c .width_le 0 4).2.2) := by
  simp only [recvFrame, h, ne_eq, not_false_eq_true, if_true]

theorem recvLoop_first_short (env : ReceiverEnv) (fuel n : Nat) (s : RecvState)
    (h : (sockRead env.rd s.conn .width_le 0 4).1 ≠ 4) :
    recvLoop env fuel (n + 1) s =
      (.metaFailed, ⟨(sockRead env.rd s.conn .width_le 0 4).2.2, s.frames⟩) := by
  simp only [recvLoop, recvFrame_first_short env.host env.rd fuel s.conn h]

theorem recvFrame_progress (host : ByteOrder) (rd : Nat → Nat → Int) (fuel : Nat) (c : Rx)
    (hfuel : MAX_FRAME_LEN < fuel) :
    (recvFrame host rd fuel c).1 ≠ .outOfFuel ∧
    (∀ w h l b, (recvFrame host rd fuel c).1 = .frame w h l b →
      (recvFrame host rd fuel c).2.rest.length + 12 ≤ c.rest.length) := by
  obtain ⟨_, _, a3, a4⟩ := sockRead_facts rd c .width_le 0 4
  obtain ⟨_, _, b3, b4⟩ := sockRead_facts rd (sockRead rd c .width_le 0 4).2.2 .height_le 0 4
  obtain ⟨_, _, c3, c4⟩ := sockRead_facts rd
    (sockRead rd (sockRead rd c .width_le 0 4).2.2 .height_le 0 4).2.2 .len_le 0 4
  simp only [recvFrame]
  split
  · simp
  · split
    · simp
    · split
      · simp
      · split
        · simp
        · rename_i h1 h2 h3 h4
          simp only [ne_eq, Decidable.not_not] at h1 h2 h3
          have htot := recvPayload_total rd
            (le32toh host (ofMem host (sockRead rd
              (sockRead rd (sockRead rd c .width_le 0 4).2.2 .height_le 0 4).2.2
                .len_le 0 4).2.1)) fuel 0
            (List.replicate (le32toh host (ofMem host (sockRead rd
              (sockRead rd (sockRead rd c .width_le 0 4).2.2 .height_le 0 4).2.2
                .len_le 0 4).2.1)) 0)
            { (sockRead rd (sockRead rd (sockRead rd c .width_le 0 4).2.2
                  .height_le 0 4).2.2 .len_le 0 4).2.2 with
              trace := (sockRead rd (sockRead rd (sockRead rd c .width_le 0 4).2.2
                  .height_le 0 4).2.2 .len_le 0 4).2.2.trace
                ++ [Ev.alloc (le32toh host (ofMem host (sockRead rd
                  (sockRead rd (sockRead rd c .width_le 0 4).2.2 .height_le 0 4).2.2
                    .len_le 0 4).2.1))] }
            (by omega)
          obtain ⟨hcons, _⟩ := recvPayload_conserve rd
            (le32toh host (ofMem host (sockRead rd
              (sockRead rd (sockRead rd c .width_le 0 4).2.2 .height_le 0 4).2.2
                .len_le 0 4).2.1)) fuel 0
            (List.replicate (le32toh host (ofMem host (sockRead rd
              (sockRead rd (sockRead rd c .width_le 0 4).2.2 .height_le 0 4).2.2
                .len_le 0 4).2.1)) 0)
            { (sockRead rd (sockRead rd (sockRead rd c .width_le 0 4).2.2
                  .height_le 0 4).2.2 .len_le 0 4).2.2 with
              trace := (sockRead rd (sockRead rd (sockRead rd c .width_le 0 4).2.2
                  .height_le 0 4).2.2 .len_le 0 4).2.2.trace
                ++ [Ev.alloc (le32toh host (ofMem host (sockRead rd
                  (sockRead rd (sockRead rd c .width_le 0 4).2.2 .height_le 0 4).2.2
                    .len_le 0 4).2.1))] }
          have a3' := a3 (by omega)
          have b3' := b3 (by omega)
          have c3' := c3 (by omega)
          simp only at hcons
          split
          · refine ⟨by simp, fun _ _ _ _ _ => ?_⟩
            simp only
            omega
          · exact ⟨by simp, fun _ _ _ _ h => by simp at h⟩
          · rename_i hx
            exact absurd hx htot

theorem recvLoop_total (env : ReceiverEnv) (fuel : Nat) (hfuel : MAX_FRAME_LEN < fuel) :
    ∀ (n : Nat) (s : RecvState), s.conn.rest.length < n →
      (recvLoop env fuel n s).1 ≠ .outOfFuel := by
  intro n
  induction n with
  | zero => intro s h; omega
  | succ n ih =>
    intro s hn
    obtain ⟨p1, p2⟩ := recvFrame_progress env.host env.rd fuel s.conn hfuel
    simp only [recvLoop]
    split
    · simp
    · simp
    · simp
    · rename_i hx
      exact absurd hx p1
    · rename_i w h l b hx
      have := p2 w h l b hx
      split
      · exact ih _ (by simp only; omega)
      · split
        · simp
        · exact ih _ (by simp only; omega)

theorem receiverCleanup_ret (r : LoopExit × RecvState) (h : r.1 ≠ .outOfFuel) :
    (receiverCleanup r).ret = some true := by
  unfold receiverCleanup
  split
  · rename_i hx
    exact absurd hx h
  · rfl

theorem receiver_fn_total (env : ReceiverEnv) (addr : String) (port : Int) (fuel : Nat)
    (hfuel : MAX_FRAME_LEN < fuel) (hin : env.incoming.length < fuel) :
    (receiver_fn env addr port fuel).ret ≠ none := by
  unfold receiver_fn
  simp only
  generalize (if is_ipv6 addr = true then addr == "::" else addr == "0.0.0.0") = any
  by_cases h0 : env.socketRet < 0
  · simp [h0]
  by_cases h1 : any = false ∧ env.ptonRet ≤ 0
  · simp only [h0, h1, and_self, if_true, if_false]
    simp
  by_cases h2 : env.bindRet < 0
  · simp only [h0, h1, h2, if_true, if_false]
    simp
  by_cases h3 : env.listenRet < 0
  · simp only [h0, h1, h2, h3, if_true, if_false]
    simp
  by_cases h4 : env.acceptRet < 0
  · simp only [h0, h1, h2, h3, h4, if_true, if_false]
    simp
  simp only [h0, h1, h2, h3, h4, if_false]
  rw [receiverCleanup_ret _ (recvLoop_total env fuel hfuel fuel _ hin)]
  simp


theorem find_isSome_iff (cs : List Char) (ch : Char) : (find cs ch).isSome = true ↔ ch ∈ cs := by
  induction cs with
  | nil => simp [find]
  | cons c cs ih =>
    by_cases h : c = ch
    · simp [find, h]
    · have h' : ¬ ch = c := fun e => h e.symm
      simp [find, h, h', ih]

theorem sendPayload_wire_grows (wr : Nat → Nat → Int) (data : List Byte) :
    ∀ (fuel sent : Nat) (c : Tx),
      ∃ t, (sendPayload wr data fuel sent c).2.2.wire = c.wire ++ t := by
  intro fuel
  induction fuel with
  | zero => intro sent c; exact ⟨[], by simp [sendPayload]⟩
  | succ fuel ih =>
    intro sent c
    simp only [sendPayload]
    split
    · split
      · exact ⟨_, rfl⟩
      · obtain ⟨t, ht⟩ := ih (sent + (sockWrite wr c .payload sent (data.drop sent)
            (min CHUNK_SIZE (data.length - sent))).1.toNat)
          (sockWrite wr c .payload sent (data.drop sent)
            (min CHUNK_SIZE (data.length - sent))).2
        refine ⟨(((data.drop sent).take (min CHUNK_SIZE (data.length - sent))).take
          (wr c.calls (min CHUNK_SIZE (data.length - sent))).toNat) ++ t, ?_⟩
        rw [ht]
        simp only [sockWrite, List.append_assoc]
    · exact ⟨[], by simp⟩

/-! ## The claims -/

/-- C1. Round trip of one frame: for every width and height below 2^32 and every payload of
at most 10*1024*1024 bytes, when every `write` of the sender's frame body and every `read`
of the receiver's frame body transfers all requested bytes, and the receiver's stream is
what the sender's frame body wrote (followed by anything), then with a step bound above
the payload length the sender completes the frame, the bytes written are the three
little-endian words followed by the payload, and the receiver decodes the same width,
height and length and fills its buffer with the payload, leaving what followed. -/
theorem C1_frame_round_trip (hostS hostR : ByteOrder) (wr rd : Nat → Nat → Int)
    (width height : Nat) (payload tail : List Byte) (c : Tx) (r : Rx) (fuel : Nat)
    (hw : width < 2 ^ 32) (hh : height < 2 ^ 32)
    (hn : payload.length ≤ 10 * 1024 * 1024)
    (hwr : ∀ i n, wr i n = (n : Int)) (hrd : ∀ i n, rd i n = (n : Int))
    (hfuel : payload.length < fuel)
    (hstream : r.rest =
      (sendFrame hostS wr fuel ⟨width, height, payload⟩ c).2.wire.drop c.wire.length ++ tail) :
    (sendFrame hostS wr fuel ⟨width, height, payload⟩ c).1 = .sent ∧
    (sendFrame hostS wr fuel ⟨width, height, payload⟩ c).2.wire
      = c.wire ++ (le32 width ++ le32 height ++ le32 payload.length ++ payload) ∧
    (recvFrame hostR rd fuel r).1 = .frame width height payload.length payload ∧
    (recvFrame hostR rd fuel r).2.rest = tail := by
  have hl32 : payload.length < 2 ^ 32 := by omega
  obtain ⟨s1, s2⟩ := sendFrame_short hostS wr ⟨width, height, payload⟩ c hw hh hl32
    (hwr _ _) (hwr _ _) (hwr _ _)
    (fun i n _ hn => by rw [hwr]; exact ⟨by omega, le_refl _⟩) fuel hfuel
  rw [s2, List.drop_left] at hstream
  obtain ⟨r1, r2⟩ := recvFrame_short hostR rd r width height payload tail hw hh hn hstream
    (hrd _ _) (hrd _ _) (hrd _ _)
    (fun i n _ hn => by rw [hrd]; exact ⟨by omega, le_refl _⟩) fuel hfuel
  exact ⟨s1, s2, r1, r2⟩

/-- Witness of C1: a 640x480 frame of three bytes sent by a little-endian host and received
by a big-endian one. -/
theorem C1_frame_round_trip_witness :
    (recvFrame .big (fun _ n => (n : Int)) 4
      ⟨[128, 2, 0, 0, 224, 1, 0, 0, 3, 0, 0, 0, 1, 2, 3], 0, []⟩).1
        = .frame 640 480 3 [1, 2, 3] :=
  (C1_frame_round_trip .little .big (fun _ n => (n : Int)) (fun _ n => (n : Int)) 640 480
    [1, 2, 3] [] ⟨[], 0, []⟩ ⟨[128, 2, 0, 0, 224, 1, 0, 0, 3, 0, 0, 0, 1, 2, 3], 0, []⟩ 4
    (by decide) (by decide) (by decide) (fun _ _ => rfl) (fun _ _ => rfl) (by decide)
    (by decide)).2.2.1

/-- C3. Wire layout of the header: for every width, height and payload length below 2^32,
whatever the byte order of the host and whatever the step bound, the first 12 bytes the
sender's frame body writes (with full writes) are width, height and length, each as four
bytes of which byte k is (value / 256^k) mod 256; and on either host the receiver's
conversion of four bytes read into a word is the little-endian value of those bytes, which
is the width, height and length a received frame reports. -/
theorem C3_header_wire_layout (host : ByteOrder) (wr : Nat → Nat → Int) (f : Captured)
    (c : Tx) (fuel : Nat) (hw : f.cols < 2 ^ 32) (hh : f.rows < 2 ^ 32)
    (hl : f.data.length < 2 ^ 32) (hwr : ∀ i n, wr i n = (n : Int)) :
    ((sendFrame host wr fuel f c).2.wire.drop c.wire.length).take 12
      = [byteAt f.cols 0, byteAt f.cols 1, byteAt f.cols 2, byteAt f.cols 3,
         byteAt f.rows 0, byteAt f.rows 1, byteAt f.rows 2, byteAt f.rows 3,
         byteAt f.data.length 0, byteAt f.data.length 1, byteAt f.data.length 2,
         byteAt f.data.length 3] ∧
    (∀ v k, (byteAt v k).val = v / 256 ^ k % 256) ∧
    (∀ (hostR : ByteOrder) (b0 b1 b2 b3 : Byte),
      le32toh hostR (ofMem hostR [b0, b1, b2, b3])
        = b0.val + 256 * b1.val + 256 ^ 2 * b2.val + 256 ^ 3 * b3.val) ∧
    (∀ (hostR : ByteOrder) (rd : Nat → Nat → Int) (r : Rx)
        (a0 a1 a2 a3 b0 b1 b2 b3 l0 l1 l2 l3 : Byte) (tail : List Byte) (w h n : Nat)
        (buffer : List Byte),
      r.rest = a0 :: a1 :: a2 :: a3 :: b0 :: b1 :: b2 :: b3 :: l0 :: l1 :: l2 :: l3 :: tail →
      rd r.calls 4 = 4 → rd (r.calls + 1) 4 = 4 → rd (r.calls + 2) 4 = 4 →
      (recvFrame hostR rd fuel r).1 = .frame w h n buffer →
      w = a0.val + 256 * a1.val + 256 ^ 2 * a2.val + 256 ^ 3 * a3.val ∧
      h = b0.val + 256 * b1.val + 256 ^ 2 * b2.val + 256 ^ 3 * b3.val ∧
      n = l0.val + 256 * l1.val + 256 ^ 2 * l2.val + 256 ^ 3 * l3.val) := by
  refine ⟨?_, fun _ _ => rfl, fun hostR b0 b1 b2 b3 => ?_, ?_⟩
  · rw [sendFrame_whole_header host wr f c hw hh hl (hwr _ _) (hwr _ _) (hwr _ _) fuel]
    obtain ⟨t, ht⟩ := sendPayload_wire_grows wr f.data fuel 0
      ⟨c.wire ++ le32 f.cols ++ le32 f.rows ++ le32 f.data.length, c.calls + 3,
        c.trace ++ [Ev.write .width_le 0 4 4, Ev.write .height_le 0 4 4,
          Ev.write .len_le 0 4 4]⟩
    rw [ht]
    simp only [List.append_assoc, List.drop_left]
    rfl
  · rw [le32toh_ofMem]; rfl
  · intro hostR rd r a0 a1 a2 a3 b0 b1 b2 b3 l0 l1 l2 l3 tail w h n buffer hrest h1 h2 h3 hres
    rw [recvFrame_header hostR rd r a0 a1 a2 a3 b0 b1 b2 b3 l0 l1 l2 l3 tail hrest h1 h2 h3
      fuel] at hres
    split at hres
    · simp at hres
    · split at hres
      · simp only [RecvExit.frame.injEq] at hres
        obtain ⟨e1, e2, e3, _⟩ := hres
        exact ⟨e1.symm, e2.symm, e3.symm⟩
      · simp at hres
      · simp at hres

/-- Witness of C3: a 640x480 frame of two bytes on a big-endian host. -/
theorem C3_header_wire_layout_witness :
    ((sendFrame .big (fun _ n => (n : Int)) 3 ⟨640, 480, [9, 8]⟩ ⟨[], 0, []⟩).2.wire.drop 0).take 12
      = [128, 2, 0, 0, 224, 1, 0, 0, 2, 0, 0, 0] :=
  (C3_header_wire_layout .big (fun _ n => (n : Int)) ⟨640, 480, [9, 8]⟩ ⟨[], 0, []⟩ 3
    (by decide) (by decide) (by decide) (fun _ _ => rfl)).1

/-- C9. Payload transfer under arbitrary short transfers: for every payload and every
schedule in which each `write` of the sender's payload loop and each `read` of the
receiver's payload loop transfers between 1 byte and the requested count, with a step
bound above the payload length both loops run to their end, the sender's loop appends
exactly the payload to the wire, and the receiver's loop ends with `received` equal to the
length and its buffer equal to the payload, leaving what followed the payload unread. -/
theorem C9_payload_short_transfers (wr rd : Nat → Nat → Int) (payload tail : List Byte)
    (c : Tx) (r : Rx) (fuel : Nat)
    (hwr : ∀ i n, 1 ≤ n → 1 ≤ wr i n ∧ wr i n ≤ (n : Int))
    (hrd : ∀ i n, 1 ≤ n → 1 ≤ rd i n ∧ rd i n ≤ (n : Int))
    (hfuel : payload.length < fuel) (hstream : r.rest = payload ++ tail) :
    (sendPayload wr payload fuel 0 c).1 = .sent ∧
    (sendPayload wr payload fuel 0 c).2.1 = payload.length ∧
    (sendPayload wr payload fuel 0 c).2.2.wire = c.wire ++ payload ∧
    (recvPayload rd payload.length fuel 0 (List.replicate payload.length 0) r).1 = .complete ∧
    (recvPayload rd payload.length fuel 0 (List.replicate payload.length 0) r).2.1
      = payload.length ∧
    (recvPayload rd payload.length fuel 0 (List.replicate payload.length 0) r).2.2.1
      = payload ∧
    (recvPayload rd payload.length fuel 0 (List.replicate payload.length 0) r).2.2.2.rest
      = tail := by
  obtain ⟨s1, s2, s3⟩ := sendPayload_short wr payload 0 (fun i n _ hn => hwr i n hn) fuel 0 c
    (Nat.zero_le _) (Nat.zero_le _) (by omega)
  obtain ⟨r1, r2, r3, r4⟩ := recvPayload_short rd payload tail 0
    (fun i n _ hn => hrd i n hn) fuel 0 (List.replicate payload.length 0) r
    (List.replicate payload.length 0) (Nat.zero_le _) (Nat.zero_le _) (by omega)
    (by simpa using hstream) (by simp) (by simp)
  exact ⟨s1, s2, by simpa using s3, r1, r2, r3, r4⟩

/-- Witness of C9: 1025 bytes, with writes and reads that transfer one byte on even calls
and everything requested on odd calls. -/
theorem C9_payload_short_transfers_witness :
    (recvPayload (fun i n => if i % 2 = 0 then 1 else (n : Int))
      (List.replicate 1025 (7 : Byte)).length 1026 0
      (List.replicate (List.replicate 1025 (7 : Byte)).length 0)
      ⟨List.replicate 1025 7 ++ [1, 2], 0, []⟩).2.2.1
        = List.replicate 1025 7 :=
  (C9_payload_short_transfers (fun i n => if i % 2 = 0 then 1 else (n : Int))
    (fun i n => if i % 2 = 0 then 1 else (n : Int)) (List.replicate 1025 7) [1, 2]
    ⟨[], 0, []⟩ ⟨List.replicate 1025 7 ++ [1, 2], 0, []⟩ 1026
    (fun i n hn => by dsimp only; split <;> omega)
    (fun i n hn => by dsimp only; split <;> omega)
    (by rw [List.length_replicate]; decide) rfl).2.2.2.2.2.1

theorem chunkOk_write_inv {len : Nat} {e : Ev} (h : chunkOk len e = true)
    (hw : senderLoopEv e = true) :
    ∃ off req ret, e = Ev.write .payload off req ret ∧ req = min 1024 (len - off) ∧
      1 ≤ req ∧ req ≤ 1024 ∧ off ≤ len ∧ off + req ≤ len ∧ ret ≤ (req : Int) := by
  cases e with
  | write buf off req ret =>
    cases buf <;> simp only [chunkOk, Bool.false_eq_true, Bool.and_eq_true,
      decide_eq_true_eq, CHUNK_SIZE] at h
    obtain ⟨⟨⟨⟨⟨h1, h2⟩, h3⟩, h4⟩, h5⟩, h6⟩ := h
    exact ⟨off, req, ret, rfl, h1, h2, h3, h4, h5, h6⟩
  | _ => simp [senderLoopEv] at hw

theorem chunkOk_read_inv {len : Nat} {e : Ev} (h : chunkOk len e = true)
    (hw : receiverLoopEv e = true) :
    ∃ off req ret, e = Ev.read .payload off req ret ∧ req = min 1024 (len - off) ∧
      1 ≤ req ∧ req ≤ 1024 ∧ off ≤ len ∧ off + req ≤ len ∧ ret ≤ (req : Int) := by
  cases e with
  | read buf off req ret =>
    cases buf <;> simp only [chunkOk, Bool.false_eq_true, Bool.and_eq_true,
      decide_eq_true_eq, CHUNK_SIZE] at h
    obtain ⟨⟨⟨⟨⟨h1, h2⟩, h3⟩, h4⟩, h5⟩, h6⟩ := h
    exact ⟨off, req, ret, rfl, h1, h2, h3, h4, h5, h6⟩
  | write buf off req ret => simp [receiverLoopEv] at hw
  | _ => simp [chunkOk] at h

/-- C10. Chunk cap and buffer bounds: in both payload loops, provided each call returns no
more than was requested, after any number of steps every `write` and `read` the loop has
issued transfers the payload buffer at an offset `off` with the requested size
`min(1024, length - off)`, which is at least 1 and at most 1024, with `off <= length` and
`off + size <= length`; the counter (`sent`, `received`) does not exceed the length, and
the receiver's buffer keeps exactly its `frame_len` bytes. -/
theorem C10_chunk_cap_and_bounds (wr rd : Nat → Nat → Int) (data : List Byte)
    (frame_len : Nat) (c : Tx) (r : Rx) (fuel : Nat)
    (hwr : ∀ i n, wr i n ≤ (n : Int)) (hrd : ∀ i n, rd i n ≤ (n : Int)) :
    (∃ evs, (sendPayload wr data fuel 0 c).2.2.trace = c.trace ++ evs ∧
      ∀ e ∈ evs, ∃ off req ret, e = Ev.write .payload off req ret ∧
        req = min 1024 (data.length - off) ∧ 1 ≤ req ∧ req ≤ 1024 ∧ off ≤ data.length ∧
        off + req ≤ data.length ∧ ret ≤ (req : Int)) ∧
    (sendPayload wr data fuel 0 c).2.1 ≤ data.length ∧
    (∃ evs, (recvPayload rd frame_len fuel 0 (List.replicate frame_len 0) r).2.2.2.trace
        = r.trace ++ evs ∧
      ∀ e ∈ evs, ∃ off req ret, e = Ev.read .payload off req ret ∧
        req = min 1024 (frame_len - off) ∧ 1 ≤ req ∧ req ≤ 1024 ∧ off ≤ frame_len ∧
        off + req ≤ frame_len ∧ ret ≤ (req : Int)) ∧
    (recvPayload rd frame_len fuel 0 (List.replicate frame_len 0) r).2.1 ≤ frame_len ∧
    (recvPayload rd frame_len fuel 0 (List.replicate frame_len 0) r).2.2.1.length
      = frame_len := by
  obtain ⟨⟨evs, he, hall⟩, hs⟩ := sendPayload_bounds wr hwr data fuel 0 c (Nat.zero_le _)
  obtain ⟨evs', he', hall'⟩ := sendPayload_trace wr data fuel 0 c
  have heq : evs' = evs := List.append_cancel_left (he'.symm.trans he)
  subst heq
  obtain ⟨⟨rvs, hr, rall⟩, hrc, hrb⟩ := recvPayload_bounds rd hrd frame_len fuel 0
    (List.replicate frame_len 0) r (Nat.zero_le _) (List.length_replicate _ _)
  obtain ⟨rvs', hr', rall'⟩ := recvPayload_trace rd frame_len fuel 0
    (List.replicate frame_len 0) r
  have heq : rvs' = rvs := List.append_cancel_left (hr'.symm.trans hr)
  subst heq
  exact ⟨⟨_, he, fun e h => chunkOk_write_inv (hall e h) (hall' e h)⟩, hs,
    ⟨_, hr, fun e h => chunkOk_read_inv (rall e h) (rall' e h)⟩, hrc, hrb⟩

/-- Witness of C10: a payload of 2500 bytes and transfers of half the requested count. -/
theorem C10_chunk_cap_and_bounds_witness :
    (sendPayload (fun _ n => ((n / 2 : Nat) : Int)) (List.replicate 2500 (5 : Byte)) 9 0
      ⟨[], 0, []⟩).2.1 ≤ (List.replicate 2500 (5 : Byte)).length :=
  (C10_chunk_cap_and_bounds (fun _ n => ((n / 2 : Nat) : Int))
    (fun _ n => ((n / 2 : Nat) : Int)) (List.replicate 2500 5) 2500 ⟨[], 0, []⟩
    ⟨List.replicate 2500 5, 0, []⟩ 9
    (fun _ n => by dsimp only; omega) (fun _ n => by dsimp only; omega)).2.1

/-- C6. Address classification: `is_ipv6 s` holds exactly when `s` contains a colon; the
two dotted addresses classify as IPv4 and the three colon addresses as IPv6. -/
theorem C6_address_classification :
    (∀ s : String, is_ipv6 s = true ↔ ':' ∈ s.data) ∧
    is_ipv6 "127.0.0.1" = false ∧ is_ipv6 "0.0.0.0" = false ∧
    is_ipv6 "::1" = true ∧ is_ipv6 "::" = true ∧ is_ipv6 "2001:db8::1" = true :=
  ⟨fun s => find_isSome_iff s.data ':', by decide, by decide, by decide, by decide,
    by decide⟩

theorem recvFrame_closed_mid_payload (host : ByteOrder) (rd : Nat → Nat → Int) (c : Rx)
    (a0 a1 a2 a3 b0 b1 b2 b3 l0 l1 l2 l3 : Byte) (part : List Byte)
    (hrest : c.rest = a0 :: a1 :: a2 :: a3 :: b0 :: b1 :: b2 :: b3 :: l0 :: l1 :: l2 :: l3 :: part)
    (h1 : rd c.calls 4 = 4) (h2 : rd (c.calls + 1) 4 = 4) (h3 : rd (c.calls + 2) 4 = 4)
    (hsmall : le32Value l0 l1 l2 l3 ≤ MAX_FRAME_LEN)
    (hpart : part.length < le32Value l0 l1 l2 l3)
    (fuel : Nat) (hfuel : le32Value l0 l1 l2 l3 < fuel) :
    (recvFrame host rd fuel c).1 = .midFrame := by
  rw [recvFrame_header host rd c a0 a1 a2 a3 b0 b1 b2 b3 l0 l1 l2 l3 part hrest h1 h2 h3 fuel]
  have hnot : ¬ (le32Value l0 l1 l2 l3 > MAX_FRAME_LEN) := by omega
  have htot := recvPayload_total rd (le32Value l0 l1 l2 l3) fuel 0
    (List.replicate (le32Value l0 l1 l2 l3) 0)
    ⟨part, c.calls + 3,
      c.trace ++ [Ev.read .width_le 0 4 4, Ev.read .height_le 0 4 4,
        Ev.read .len_le 0 4 4, Ev.alloc (le32Value l0 l1 l2 l3)]⟩ (by omega)
  obtain ⟨hcons, hcomp⟩ := recvPayload_conserve rd (le32Value l0 l1 l2 l3) fuel 0
    (List.replicate (le32Value l0 l1 l2 l3) 0)
    ⟨part, c.calls + 3,
      c.trace ++ [Ev.read .width_le 0 4 4, Ev.read .height_le 0 4 4,
        Ev.read .len_le 0 4 4, Ev.alloc (le32Value l0 l1 l2 l3)]⟩
  simp only [hnot, if_false]
  split
  · rename_i hx
    have := hcomp hx
    simp only at hcons
    omega
  · rfl
  · rename_i hx
    exact absurd hx htot

/-- C2. Oversize rejection: for every 12 header bytes whose length word, as the receiver
decodes it, exceeds 10*1024*1024, when the three header reads return 4 bytes each the
receive loop leaves through the "frame too large" branch in that turn, with no frame added,
and the function returns: after the three header reads the trace holds only the close of
the client socket, the close of the listening socket and the release of the windows, so no
buffer is allocated and no further read is issued. -/
theorem C2_oversize_rejected (env : ReceiverEnv) (fuel n : Nat) (s : RecvState)
    (a0 a1 a2 a3 b0 b1 b2 b3 l0 l1 l2 l3 : Byte) (tail : List Byte)
    (hrest : s.conn.rest =
      a0 :: a1 :: a2 :: a3 :: b0 :: b1 :: b2 :: b3 :: l0 :: l1 :: l2 :: l3 :: tail)
    (h1 : env.rd s.conn.calls 4 = 4) (h2 : env.rd (s.conn.calls + 1) 4 = 4)
    (h3 : env.rd (s.conn.calls + 2) 4 = 4)
    (hbig : 10 * 1024 * 1024 < le32toh env.host (ofMem env.host [l0, l1, l2, l3])) :
    (recvLoop env fuel (n + 1) s).1 = .tooLarge ∧
    (recvLoop env fuel (n + 1) s).2.frames = s.frames ∧
    receiverCleanup (recvLoop env fuel (n + 1) s) =
      ⟨some true, s.conn.trace ++
        [Ev.read .width_le 0 4 4, Ev.read .height_le 0 4 4, Ev.read .len_le 0 4 4,
          Ev.close .client_sock, Ev.close .server_fd, Ev.destroyAllWindows]⟩ := by
  rw [le32toh_ofMem] at hbig
  have hgt : le32Value l0 l1 l2 l3 > MAX_FRAME_LEN := hbig
  have hframe := recvFrame_header env.host env.rd s.conn a0 a1 a2 a3 b0 b1 b2 b3 l0 l1 l2 l3
    tail hrest h1 h2 h3 fuel
  simp only [hgt, if_true] at hframe
  simp only [recvLoop, hframe, receiverCleanup, List.append_assoc, List.cons_append,
    List.nil_append, and_self]

/-- Witness of C2: a header announcing 0x01000000 = 16777216 bytes. -/
theorem C2_oversize_rejected_witness :
    (recvLoop ⟨.little, 3, 0, 1, 0, 0, 4, [], fun _ n => (n : Int), fun _ => true, fun _ => -1⟩
      1 1 ⟨⟨[1, 0, 0, 0, 1, 0, 0, 0, 0, 0, 0, 1, 9, 9], 0, []⟩, []⟩).1 = .tooLarge :=
  (C2_oversize_rejected
    ⟨.little, 3, 0, 1, 0, 0, 4, [], fun _ n => (n : Int), fun _ => true, fun _ => -1⟩ 1 0
    ⟨⟨[1, 0, 0, 0, 1, 0, 0, 0, 0, 0, 0, 1, 9, 9], 0, []⟩, []⟩
    1 0 0 0 1 0 0 0 0 0 0 1 [9, 9] rfl rfl rfl rfl (by decide)).1

theorem recvLoop_midFrame (env : ReceiverEnv) (fuel n : Nat) (s : RecvState)
    (h : (recvFrame env.host env.rd fuel s.conn).1 = .midFrame) :
    recvLoop env fuel (n + 1) s
      = (.midFrame, ⟨(recvFrame env.host env.rd fuel s.conn).2, s.frames⟩) := by
  simp only [recvLoop, h]

/-- C7. Release exactly once: on every run of `receiver_fn` and of `sender_fn` that returns,
each socket that was opened (a successful `socket` or `accept`) is closed exactly once and
no system call touches it after its `close`, and a socket that was not opened is never
touched.  The receiver returns whenever the step bound exceeds both the frame limit and
the number of bytes the client sends.  When the first read of a header returns 0 the loop
ends in that turn through the "connection closed" branch and the function returns after
closing both sockets; when the client closes after a whole header but before all of the
announced payload, the loop ends in that turn through the "closed during frame read"
branch and the function returns after closing both sockets. -/
theorem C7_sockets_released_once (rEnv : ReceiverEnv) (sEnv : SenderEnv) (addr : String)
    (port : Int) (fuel : Nat) :
    ((receiver_fn rEnv addr port fuel).ret ≠ none →
      releasedAll (receiver_fn rEnv addr port fuel).trace = true) ∧
    ((sender_fn sEnv addr port fuel).ret ≠ none →
      releasedAll (sender_fn sEnv addr port fuel).trace = true) ∧
    (MAX_FRAME_LEN < fuel → rEnv.incoming.length < fuel →
      (receiver_fn rEnv addr port fuel).ret ≠ none) ∧
    (∀ (n : Nat) (s : RecvState), (sockRead rEnv.rd s.conn .width_le 0 4).1 = 0 →
      (recvLoop rEnv fuel (n + 1) s).1 = .metaFailed ∧
      receiverCleanup (recvLoop rEnv fuel (n + 1) s) =
        ⟨some true, s.conn.trace ++ [Ev.read .width_le 0 4 0, Ev.close .client_sock,
          Ev.close .server_fd, Ev.destroyAllWindows]⟩) ∧
    (∀ (n : Nat) (s : RecvState) (a0 a1 a2 a3 b0 b1 b2 b3 l0 l1 l2 l3 : Byte)
        (part : List Byte),
      s.conn.rest =
        a0 :: a1 :: a2 :: a3 :: b0 :: b1 :: b2 :: b3 :: l0 :: l1 :: l2 :: l3 :: part →
      rEnv.rd s.conn.calls 4 = 4 → rEnv.rd (s.conn.calls + 1) 4 = 4 →
      rEnv.rd (s.conn.calls + 2) 4 = 4 →
      le32toh rEnv.host (ofMem rEnv.host [l0, l1, l2, l3]) ≤ 10 * 1024 * 1024 →
      part.length < le32toh rEnv.host (ofMem rEnv.host [l0, l1, l2, l3]) →
      le32toh rEnv.host (ofMem rEnv.host [l0, l1, l2, l3]) < fuel →
      (recvLoop rEnv fuel (n + 1) s).1 = .midFrame ∧
      ∃ evs, (∀ e ∈ evs, receiverLoopEv e = true) ∧
        receiverCleanup (recvLoop rEnv fuel (n + 1) s) =
          ⟨some true, s.conn.trace ++ evs ++ [Ev.close .client_sock, Ev.close .server_fd,
            Ev.destroyAllWindows]⟩) := by
  refine ⟨receiver_fn_released rEnv addr port fuel, sender_fn_released sEnv addr port fuel,
    receiver_fn_total rEnv addr port fuel, ?_, ?_⟩
  · intro n s h0
    have hne : (sockRead rEnv.rd s.conn .width_le 0 4).1 ≠ 4 := by rw [h0]; decide
    obtain ⟨f1, _, _, _⟩ := sockRead_facts rEnv.rd s.conn .width_le 0 4
    rw [recvLoop_first_short rEnv fuel n s hne]
    simp only [receiverCleanup, f1, h0, List.append_assoc, List.singleton_append, and_self]
  · intro n s a0 a1 a2 a3 b0 b1 b2 b3 l0 l1 l2 l3 part hrest h1 h2 h3 hsmall hpart hfuel
    rw [le32toh_ofMem] at hsmall hpart hfuel
    have hmid := recvFrame_closed_mid_payload rEnv.host rEnv.rd s.conn a0 a1 a2 a3 b0 b1 b2 b3
      l0 l1 l2 l3 part hrest h1 h2 h3 hsmall hpart fuel hfuel
    obtain ⟨evs, hevs, hall⟩ := recvFrame_trace rEnv.host rEnv.rd fuel s.conn
    rw [recvLoop_midFrame rEnv fuel n s hmid]
    refine ⟨rfl, evs, hall, ?_⟩
    simp only [receiverCleanup, hevs]

/-- Witness of C7: a receiver whose client closes after a header announcing 5 bytes and 2
bytes of payload, a sender whose fifth `write` fails, and a receiver whose client closes
at once. -/
theorem C7_sockets_released_once_witness :
    releasedAll (receiver_fn
      ⟨.little, 3, 0, 1, 0, 0, 4, [1, 0, 0, 0, 1, 0, 0, 0, 5, 0, 0, 0, 7, 7],
        fun _ n => (n : Int), fun _ => true, fun _ => -1⟩ "0.0.0.0" 8080 6).trace = true ∧
    releasedAll (sender_fn
      ⟨.little, 3, 1, 0, true, fun _ => .ok ⟨2, 2, [1]⟩,
        fun i n => if i < 4 then (n : Int) else -1⟩ "0.0.0.0" 8080 6).trace = true ∧
    (recvLoop
      ⟨.little, 3, 0, 1, 0, 0, 4, [1, 0, 0, 0, 1, 0, 0, 0, 5, 0, 0, 0, 7, 7],
        fun _ n => (n : Int), fun _ => true, fun _ => -1⟩ 6 1
      ⟨⟨[1, 0, 0, 0, 1, 0, 0, 0, 5, 0, 0, 0, 7, 7], 0, []⟩, []⟩).1 = .midFrame ∧
    (recvLoop
      ⟨.little, 3, 0, 1, 0, 0, 4, [1, 0, 0, 0, 1, 0, 0, 0, 5, 0, 0, 0, 7, 7],
        fun _ n => (n : Int), fun _ => true, fun _ => -1⟩ 6 1 ⟨⟨[], 0, []⟩, []⟩).1
      = .metaFailed :=
  ⟨(C7_sockets_released_once
      ⟨.little, 3, 0, 1, 0, 0, 4, [1, 0, 0, 0, 1, 0, 0, 0, 5, 0, 0, 0, 7, 7],
        fun _ n => (n : Int), fun _ => true, fun _ => -1⟩
      ⟨.little, 3, 1, 0, true, fun _ => .ok ⟨2, 2, [1]⟩,
        fun i n => if i < 4 then (n : Int) else -1⟩ "0.0.0.0" 8080 6).1 (by decide),
   (C7_sockets_released_once
      ⟨.little, 3, 0, 1, 0, 0, 4, [1, 0, 0, 0, 1, 0, 0, 0, 5, 0, 0, 0, 7, 7],
        fun _ n => (n : Int), fun _ => true, fun _ => -1⟩
      ⟨.little, 3, 1, 0, true, fun _ => .ok ⟨2, 2, [1]⟩,
        fun i n => if i < 4 then (n : Int) else -1⟩ "0.0.0.0" 8080 6).2.1 (by decide),
   ((C7_sockets_released_once
      ⟨.little, 3, 0, 1, 0, 0, 4, [1, 0, 0, 0, 1, 0, 0, 0, 5, 0, 0, 0, 7, 7],
        fun _ n => (n : Int), fun _ => true, fun _ => -1⟩
      ⟨.little, 3, 1, 0, true, fun _ => .ok ⟨2, 2, [1]⟩,
        fun i n => if i < 4 then (n : Int) else -1⟩ "0.0.0.0" 8080 6).2.2.2.2 0
      ⟨⟨[1, 0, 0, 0, 1, 0, 0, 0, 5, 0, 0, 0, 7, 7], 0, []⟩, []⟩
      1 0 0 0 1 0 0 0 5 0 0 0 [7, 7] rfl rfl rfl rfl (by decide) (by decide) (by decide)).1,
   ((C7_sockets_released_once
      ⟨.little, 3, 0, 1, 0, 0, 4, [1, 0, 0, 0, 1, 0, 0, 0, 5, 0, 0, 0, 7, 7],
        fun _ n => (n : Int), fun _ => true, fun _ => -1⟩
      ⟨.little, 3, 1, 0, true, fun _ => .ok ⟨2, 2, [1]⟩,
        fun i n => if i < 4 then (n : Int) else -1⟩ "0.0.0.0" 8080 6).2.2.2.1 0
      ⟨⟨[], 0, []⟩, []⟩ (by decide)).1⟩

/-- C8 at the failing input: with an unrecognized mode and a port that is not numeric,
`std::stoi` (line 266) throws before the mode is examined (lines 271-279), so `main` does
not return 1: the exception leaves `main`.  No network operation has been performed. -/
theorem C8_unrecognized_mode_nonnumeric_port (w : World) (fuel : Nat) :
    main w ["vidtcp", "bogus", "127.0.0.1", "abc"] fuel
      = .uncaught .invalid_argument [] ∧
    main w ["vidtcp", "bogus", "127.0.0.1", "abc"] fuel ≠ .returned 1 [] := by
  constructor
  · rfl
  · intro h
    cases h

/-- The part of C8 the code does satisfy: a wrong argument count returns 1, and so does an
unrecognized mode when the port argument converts; in both cases, and when the conversion
throws, the trace is empty. -/
theorem main_usage_errors (w : World) (argv : List String) (fuel : Nat) :
    (argv.length ≠ 4 → main w argv fuel = .returned 1 []) ∧
    (argv.length = 4 → argv.getD 1 "" ≠ "send" → argv.getD 1 "" ≠ "receive" →
      (∀ port, stoi (argv.getD 3 "") = .ok port → main w argv fuel = .returned 1 []) ∧
      (∀ e, stoi (argv.getD 3 "") = .error e → main w argv fuel = .uncaught e [])) := by
  refine ⟨fun h => by simp [main, h], fun h hs hr => ⟨fun port hp => ?_, fun e he => ?_⟩⟩
  · simp only [main, h, ne_eq, not_true_eq_false, if_false, hp, hs, hr]
  · simp only [main, h, ne_eq, not_true_eq_false, if_false, he]

theorem recvFrame_header_short (host : ByteOrder) (rd : Nat → Nat → Int) (fuel : Nat)
    (c : Rx)
    (h : (sockRead rd c .width_le 0 4).1 ≠ 4 ∨
      (sockRead rd (sockRead rd c .width_le 0 4).2.2 .height_le 0 4).1 ≠ 4 ∨
      (sockRead rd (sockRead rd (sockRead rd c .width_le 0 4).2.2 .height_le 0 4).2.2
        .len_le 0 4).1 ≠ 4) :
    (recvFrame host rd fuel c).1 = .metaFailed := by
  simp only [recvFrame]
  split
  · rfl
  · split
    · rfl
    · split
      · rfl
      · rename_i h1 h2 h3
        rcases h with h | h | h
        · exact absurd h h1
        · exact absurd h h2
        · exact absurd h h3

/-- C5, amended. One-byte-at-a-time payload transfers: for every frame with width and
height below 2^32 and a payload of at most 10*1024*1024 bytes, at any point of a
connection, when each of the three header words is transferred whole by its one `write`
and its one `read` (each returning 4), and every `write` and `read` of the payload loops
transfers only 1 byte, the frame is reassembled correctly: the bytes put on the wire are
the 12-byte header followed by the payload, and the receiver obtains the same width,
height, length and payload.  The accumulation covers the payload only: when any of the
three header reads (width, height or length) returns anything but 4 bytes, the receive
loop ends in that turn through the "connection closed or metadata read failed" branch,
with no frame added. -/
theorem C5_one_byte_payload_transfers (hostS hostR : ByteOrder) (wr rd : Nat → Nat → Int)
    (width height : Nat) (payload tail : List Byte) (c : Tx) (r : Rx) (fuel : Nat)
    (hw : width < 2 ^ 32) (hh : height < 2 ^ 32) (hn : payload.length ≤ 10 * 1024 * 1024)
    (hwr_head : wr c.calls 4 = 4 ∧ wr (c.calls + 1) 4 = 4 ∧ wr (c.calls + 2) 4 = 4)
    (hwr_pay : ∀ i n, c.calls + 3 ≤ i → wr i n = 1)
    (hrd_head : rd r.calls 4 = 4 ∧ rd (r.calls + 1) 4 = 4 ∧ rd (r.calls + 2) 4 = 4)
    (hrd_pay : ∀ i n, r.calls + 3 ≤ i → rd i n = 1)
    (hstream : r.rest
      = le32 width ++ le32 height ++ le32 payload.length ++ payload ++ tail)
    (hfuel : payload.length < fuel) :
    (sendFrame hostS wr fuel ⟨width, height, payload⟩ c).1 = .sent ∧
    (sendFrame hostS wr fuel ⟨width, height, payload⟩ c).2.wire
      = c.wire ++ (le32 width ++ le32 height ++ le32 payload.length ++ payload) ∧
    (recvFrame hostR rd fuel r).1 = .frame width height payload.length payload ∧
    (recvFrame hostR rd fuel r).2.rest = tail ∧
    (∀ (env : ReceiverEnv) (n : Nat) (s : RecvState),
      ((sockRead env.rd s.conn .width_le 0 4).1 ≠ 4 ∨
        (sockRead env.rd (sockRead env.rd s.conn .width_le 0 4).2.2 .height_le 0 4).1 ≠ 4 ∨
        (sockRead env.rd
          (sockRead env.rd (sockRead env.rd s.conn .width_le 0 4).2.2 .height_le 0 4).2.2
          .len_le 0 4).1 ≠ 4) →
      (recvFrame env.host env.rd fuel s.conn).1 = .metaFailed ∧
      (recvLoop env fuel (n + 1) s).1 = .metaFailed ∧
      (recvLoop env fuel (n + 1) s).2.frames = s.frames) := by
  have hl32 : payload.length < 2 ^ 32 := by omega
  obtain ⟨s1, s2⟩ := sendFrame_short hostS wr ⟨width, height, payload⟩ c hw hh hl32
    hwr_head.1 hwr_head.2.1 hwr_head.2.2
    (fun i n hi hn => by
      rw [hwr_pay i n hi]
      omega) fuel hfuel
  obtain ⟨r1, r2⟩ := recvFrame_short hostR rd r width height payload tail hw hh hn hstream
    hrd_head.1 hrd_head.2.1 hrd_head.2.2
    (fun i n hi hn => by
      rw [hrd_pay i n hi]
      omega) fuel hfuel
  refine ⟨s1, s2, r1, r2, ?_⟩
  intro env n s h
  have hm := recvFrame_header_short env.host env.rd fuel s.conn h
  refine ⟨hm, ?_, ?_⟩ <;> simp only [recvLoop, hm]

/-- Witness of C5: a 640x480 frame of three bytes on a fresh connection. -/
theorem C5_one_byte_payload_transfers_witness :
    (recvFrame .little (fun i n => if i < 3 then (n : Int) else 1) 4
      ⟨le32 640 ++ le32 480 ++ le32 ([1, 2, 3] : List Byte).length ++ [1, 2, 3] ++ [], 0, []⟩).1
        = .frame 640 480 ([1, 2, 3] : List Byte).length [1, 2, 3] :=
  (C5_one_byte_payload_transfers .little .little (fun i n => if i < 3 then (n : Int) else 1)
    (fun i n => if i < 3 then (n : Int) else 1) 640 480 [1, 2, 3] [] ⟨[], 0, []⟩
    ⟨le32 640 ++ le32 480 ++ le32 ([1, 2, 3] : List Byte).length ++ [1, 2, 3] ++ [], 0, []⟩ 4
    (by decide) (by decide) (by decide) (by decide)
    (fun i n hi => by
      dsimp only at hi ⊢
      rw [if_neg (by omega)])
    (by decide)
    (fun i n hi => by
      dsimp only at hi ⊢
      rw [if_neg (by omega)])
    rfl (by decide)).2.2.1

/-- Counterexample to C5 as stated: a 640x480 frame of three bytes when every `write` and
every `read` returns 1.  The sender puts 6 bytes on the wire (the first byte of each header
word, then the payload) instead of the 15 of the frame, and the receiver, reading the
correct 15 bytes one at a time, leaves after its first header read without a frame. -/
theorem C5_counterexample_one_byte_header :
    (sendFrame .little (fun _ _ => 1) 4 ⟨640, 480, [1, 2, 3]⟩ ⟨[], 0, []⟩).2.wire
      = [128, 224, 3, 1, 2, 3] ∧
    (sendFrame .little (fun _ _ => 1) 4 ⟨640, 480, [1, 2, 3]⟩ ⟨[], 0, []⟩).2.wire
      ≠ le32 640 ++ le32 480 ++ le32 3 ++ [1, 2, 3] ∧
    (recvFrame .little (fun _ _ => 1) 4
      ⟨le32 640 ++ le32 480 ++ le32 3 ++ [1, 2, 3], 0, []⟩).1 = .metaFailed ∧
    (recvFrame .little (fun _ _ => 1) 4
      ⟨le32 640 ++ le32 480 ++ le32 3 ++ [1, 2, 3], 0, []⟩).1 ≠ .frame 640 480 3 [1, 2, 3] := by
  decide

end VidTcp
